import Mathlib

/-!
Verification development for `django_beat_periodic`: a shallow embedding of
`django_beat_periodic/sync.py` (`sync_periodic_tasks`) together with the
declaration registry populated by the `@periodic_task` decorator
(`decorators.py` / `registry.py`), and theorems about the reconciliation
algorithm.

Modelling conventions:
* The Django/celery-beat store is a `Db` value holding the `PeriodicTask`
  rows and the shared `IntervalSchedule` / `CrontabSchedule` rows; ORM
  `get_or_create` becomes list search plus append.
* Wall-clock time (`timezone.now()`) is an `Int` parameter `now` of a run.
* An `interval` declaration is modelled as its value in whole seconds
  (covering `int` arguments and whole-second `timedelta`s); the code's
  `int(timedelta.total_seconds())` is then the identity, and Python
  truthiness of the (converted) `timedelta` is `seconds ≠ 0`.
* A `crontab` declaration is either a pattern string or a field map; a field
  map is modelled with all five `CrontabSchedule` key fields present
  (Django's `"*"` defaults applied); the degenerate empty dict `{}` is not
  modelled.  Python truthiness of a string is `s ≠ ""`, of a field map `true`.
* `args` / `kwargs` job options are carried in already-JSON-serialized form
  (`json.dumps` applied), with the source defaults `"[]"` / `"{}"`.
* Extra `**kwargs` fields of a declaration beyond
  `name/start_time/args/kwargs/queue/priority` (arbitrary further
  `PeriodicTask` model fields) are not modelled.
* Logging calls become a list of `LogEvent` values in call order.
* The module-level `_already_synced` latch and the "tables exist" condition
  (the `PeriodicTask.objects.count()` probe) are explicit inputs; the latch
  value after the run is part of the output.
-/

namespace DjangoBeatPeriodic

/-- `MANAGED_DESCRIPTION` constant from `sync.py`: marker stored in
`PeriodicTask.description` identifying rows managed by this package. -/
def MANAGED_DESCRIPTION : String := "Managed by django-beat-periodic"

/-- Helper for `pySplit`: walks the character list accumulating the current
token (in reverse); whitespace flushes the token, so no empty tokens are
produced. -/
def pyWordsAux : List Char → List Char → List String
  | [], cur => if cur.isEmpty then [] else [⟨cur.reverse⟩]
  | c :: rest, cur =>
    if c.isWhitespace then
      if cur.isEmpty then pyWordsAux rest [] else ⟨cur.reverse⟩ :: pyWordsAux rest []
    else pyWordsAux rest (c :: cur)

/-- Python's `str.split()` with no separator argument (used by
`crontab.split()` in `sync.py` line 93): split on runs of whitespace,
discarding empty fields and leading/trailing whitespace. -/
def pySplit (s : String) : List String := pyWordsAux s.toList []

/-- A `crontab=` argument of `@periodic_task`: either a 5-field pattern
string or a `CrontabSchedule` field map (modelled with all five key fields
resolved, Django defaults applied). -/
inductive Crontab where
  | str (s : String)
  | fields (minute hour dayOfMonth monthOfYear dayOfWeek : String)
deriving DecidableEq, Repr

/-- One entry of `PERIODIC_TASKS` (`registry.py`), as appended by the
`@periodic_task` decorator (`decorators.py`): the function (kept as its
module-qualified path `f"{func.__module__}.{func.__name__}"`), the schedule
arguments, the enabled flag, and the recognised extra kwargs.  `none` in an
`Option` field means the kwarg was absent. -/
structure Job where
  modulePath : String
  interval : Option Int := none
  crontab : Option Crontab := none
  enabled : Bool := true
  name : Option String := none
  startTime : Option Int := none
  args : Option String := none
  kwargs : Option String := none
  queue : Option String := none
  priority : Option Int := none
deriving DecidableEq, Repr

/-- `task_name = kwargs.pop("name", task_path)` (`sync.py` line 69). -/
def taskNameOf (j : Job) : String := j.name.getD j.modulePath

/-- An `IntervalSchedule` row: `id` primary key, `every`/`period` fields.
`period` is always `"seconds"` for rows created by the sync. -/
structure IntervalRow where
  id : Nat
  every : Int
  period : String
deriving DecidableEq, Repr

/-- A `CrontabSchedule` row: `id` primary key and the five pattern fields. -/
structure CronRow where
  id : Nat
  minute : String
  hour : String
  dayOfMonth : String
  monthOfYear : String
  dayOfWeek : String
deriving DecidableEq, Repr

/-- A `PeriodicTask` row.  `interval`/`crontab`/`solar`/`clocked` hold the
`id` of the referenced schedule row (or `none` for SQL NULL).  `startTime`
is `none` for NULL. -/
structure TaskRow where
  name : String
  task : String
  enabled : Bool
  description : String
  args : String
  kwargs : String
  queue : Option String
  priority : Option Int
  startTime : Option Int
  interval : Option Nat
  crontab : Option Nat
  solar : Option Nat
  clocked : Option Nat
deriving DecidableEq, Repr

/-- The persistent store: the three tables plus primary-key counters for the
two schedule tables. -/
structure Db where
  tasks : List TaskRow
  intervals : List IntervalRow
  crontabs : List CronRow
  nextIntervalId : Nat := 0
  nextCronId : Nat := 0
deriving DecidableEq, Repr

/-- The empty store. -/
def emptyDb : Db := ⟨[], [], [], 0, 0⟩

/-- `IntervalSchedule.objects.get_or_create(every=…, period=SECONDS)`
(`sync.py` lines 85-88): return the id of the first row with the given
field values, creating one when absent. -/
def getOrCreateInterval (db : Db) (every : Int) : Nat × Db :=
  match db.intervals.find? (fun r => r.every == every && r.period == "seconds") with
  | some r => (r.id, db)
  | none =>
      (db.nextIntervalId,
       { db with
          intervals := db.intervals ++ [⟨db.nextIntervalId, every, "seconds"⟩],
          nextIntervalId := db.nextIntervalId + 1 })

/-- `CrontabSchedule.objects.get_or_create(minute=…, …)` (`sync.py`
lines 95-101 and 112). -/
def getOrCreateCron (db : Db) (m h dom moy dow : String) : Nat × Db :=
  match db.crontabs.find? (fun r =>
      r.minute == m && r.hour == h && r.dayOfMonth == dom &&
      r.monthOfYear == moy && r.dayOfWeek == dow) with
  | some r => (r.id, db)
  | none =>
      (db.nextCronId,
       { db with
          crontabs := db.crontabs ++ [⟨db.nextCronId, m, h, dom, moy, dow⟩],
          nextCronId := db.nextCronId + 1 })

/-- Result of the schedule-building block (`sync.py` lines 75-113):
either the `continue` of the malformed-crontab-string branch (line 110),
or the populated `schedule_kwargs` slots together with the store (which the
`get_or_create` calls may have extended). -/
inductive ScheduleBuild where
  | invalidCron (value : String)
  | ok (intervalId : Option Nat) (crontabId : Option Nat) (db : Db)

/-- `sync.py` lines 75-113: build the schedule for one declaration.  The
`interval` branch wins when both are set; a crontab string is split and
requires exactly 5 fields; a crontab field map is used directly. -/
def buildSchedule (db : Db) (j : Job) : ScheduleBuild :=
  match j.interval with
  | some secs =>
      let p := getOrCreateInterval db secs
      .ok (some p.1) none p.2
  | none =>
      match j.crontab with
      | some (.str s) =>
          match pySplit s with
          | [m, h, dom, moy, dow] =>
              let p := getOrCreateCron db m h dom moy dow
              .ok none (some p.1) p.2
          | _ => .invalidCron s
      | some (.fields m h dom moy dow) =>
          let p := getOrCreateCron db m h dom moy dow
          .ok none (some p.1) p.2
      | none => .ok none none db

/-- Python truthiness of the `interval` variable at `sync.py` line 115 (by
then an `int` has been converted to a `timedelta`; both are falsy exactly
at zero, and `None` is falsy). -/
def intervalTruthy (i : Option Int) : Bool :=
  match i with
  | none => false
  | some s => s != 0

/-- Python truthiness of the `crontab` variable at `sync.py` line 115: an
empty string is falsy, a (modelled, nonempty) field map is truthy. -/
def crontabTruthy (c : Option Crontab) : Bool :=
  match c with
  | none => false
  | some (.str s) => s != ""
  | some (.fields _ _ _ _ _) => true

/-- The `defaults` dict of `sync.py` lines 125-136 (the modelled fields). -/
structure Defaults where
  task : String
  enabled : Bool
  description : String
  args : String
  kwargs : String
  queue : Option String
  priority : Option Int
  startTime : Option Int
  interval : Option Nat
  crontab : Option Nat
  solar : Option Nat
  clocked : Option Nat
deriving DecidableEq, Repr

/-- Assemble the `defaults` dict for a declaration (`sync.py` lines
123-136): `start_time` defaults to `now`, `args`/`kwargs` to the serialized
empty collections, the schedule slots come from `buildSchedule`, all other
schedule slots stay NULL. -/
def mkDefaults (now : Int) (j : Job) (iSid cSid : Option Nat) : Defaults :=
  { task := j.modulePath
    enabled := j.enabled
    description := MANAGED_DESCRIPTION
    args := j.args.getD "[]"
    kwargs := j.kwargs.getD "{}"
    queue := j.queue
    priority := j.priority
    startTime := some (j.startTime.getD now)
    interval := iSid
    crontab := cSid
    solar := none
    clocked := none }

/-- A fresh `PeriodicTask` row created with `name` and `defaults`
(`sync.py` lines 141-143, created case). -/
def rowOfDefaults (n : String) (d : Defaults) : TaskRow :=
  { name := n, task := d.task, enabled := d.enabled, description := d.description,
    args := d.args, kwargs := d.kwargs, queue := d.queue, priority := d.priority,
    startTime := d.startTime, interval := d.interval, crontab := d.crontab,
    solar := d.solar, clocked := d.clocked }

/-- The `needs_update` loop condition (`sync.py` lines 145-152): some
compared field of the existing row differs from `defaults`; `start_time` is
only compared while the row's value is NULL. -/
def fieldsDiffer (r : TaskRow) (d : Defaults) : Bool :=
  r.task != d.task || r.enabled != d.enabled || r.description != d.description ||
  r.args != d.args || r.kwargs != d.kwargs || r.queue != d.queue ||
  r.priority != d.priority ||
  (!r.startTime.isSome && r.startTime != d.startTime) ||
  r.interval != d.interval || r.crontab != d.crontab ||
  r.solar != d.solar || r.clocked != d.clocked

/-- The row after the setattr loop of `sync.py` lines 146-152: every
compared field takes the target value; a non-NULL `start_time` is kept. -/
def updatedRow (r : TaskRow) (d : Defaults) : TaskRow :=
  { r with
    task := d.task, enabled := d.enabled, description := d.description,
    args := d.args, kwargs := d.kwargs, queue := d.queue, priority := d.priority,
    startTime := if r.startTime.isSome then r.startTime else d.startTime,
    interval := d.interval, crontab := d.crontab,
    solar := d.solar, clocked := d.clocked }

/-- A log line, in the order emitted by `sync.py`. -/
inductive LogEvent where
  | debugTablesMissing
  | infoSyncStart
  | warnInvalidCrontab (taskPath : String) (value : String)
  | warnNoSchedule (taskPath : String)
  | infoRemovedStale (names : List String)
  | infoSynced (total : Nat) (changedCount : Nat)
  | infoUpToDate
deriving DecidableEq, Repr

/-- Effect of one iteration of the `for task_info in PERIODIC_TASKS` loop on
everything except `active_task_names` (which unconditionally gains the
task's name first, `sync.py` line 70): the new store, the number of created
rows (0 or 1), updated rows (0 or 1), and the log lines emitted. -/
structure StepResult where
  db : Db
  createdD : Nat
  updatedD : Nat
  logD : List LogEvent
deriving DecidableEq, Repr

/-- The create-or-update stage (`sync.py` lines 119-157): get-or-create the
`PeriodicTask` row by name, and on the found path run the field-diff loop,
saving only when something differs. -/
def diffOrCreate (now : Int) (j : Job) (iSid cSid : Option Nat) (db1 : Db) : StepResult :=
  let d := mkDefaults now j iSid cSid
  let n := taskNameOf j
  match db1.tasks.find? (fun r => r.name == n) with
  | none =>
      ⟨{ db1 with tasks := db1.tasks ++ [rowOfDefaults n d] }, 1, 0, []⟩
  | some r =>
      if fieldsDiffer r d then
        ⟨{ db1 with
            tasks := db1.tasks.map
              (fun r2 => if r2.name == n then updatedRow r2 d else r2) },
         0, 1, []⟩
      else ⟨db1, 0, 0, []⟩

/-- One iteration of the per-job loop (`sync.py` lines 61-157), minus the
`active_task_names.append` which is threaded by `processJob`. -/
def jobStep (now : Int) (db : Db) (j : Job) : StepResult :=
  let taskPath := j.modulePath
  match buildSchedule db j with
  | .invalidCron s => ⟨db, 0, 0, [.warnInvalidCrontab taskPath s]⟩
  | .ok iSid cSid db1 =>
      if !(intervalTruthy j.interval || crontabTruthy j.crontab) then
        ⟨db1, 0, 0, [.warnNoSchedule taskPath]⟩
      else
        diffOrCreate now j iSid cSid db1

/-- Loop state of the reconciliation batch: the store, the
`active_task_names` list, the `changed_count`, plus instrumentation
separating `changed_count` into its created/updated contributions, and the
log so far. -/
structure LoopState where
  db : Db
  activeNames : List String
  changed : Nat
  created : Nat
  updated : Nat
  log : List LogEvent
deriving DecidableEq, Repr

/-- One iteration of the per-job loop including the unconditional
`active_task_names.append(task_name)` (`sync.py` line 70). -/
def processJob (now : Int) (st : LoopState) (j : Job) : LoopState :=
  let r := jobStep now st.db j
  ⟨r.db, st.activeNames ++ [taskNameOf j],
   st.changed + (r.createdD + r.updatedD),
   st.created + r.createdD, st.updated + r.updatedD,
   st.log ++ r.logD⟩

/-- The whole `for task_info in PERIODIC_TASKS:` loop. -/
def syncLoop (now : Int) (jobs : List Job) (st : LoopState) : LoopState :=
  jobs.foldl (processJob now) st

/-- The stale-row predicate of `sync.py` lines 162-164:
`description == MANAGED_DESCRIPTION` and name not among
`active_task_names`. -/
def isStale (active : List String) (r : TaskRow) : Bool :=
  r.description == MANAGED_DESCRIPTION && !(active.contains r.name)

/-- Everything the run communicates back: the latch value
(`_already_synced` at return), the store, `active_task_names`,
`changed_count`, instrumentation counters, the number of
`PeriodicTasks.update_changed()` invocations, and the log. -/
structure SyncOutcome where
  gate : Bool
  db : Db
  activeNames : List String
  changed : Nat
  created : Nat
  updated : Nat
  deleted : Nat
  notifyCalls : Nat
  log : List LogEvent
deriving DecidableEq, Repr

/-- The body of `sync_periodic_tasks` after the latch and table checks
(`sync.py` lines 56-185): the per-job loop, the stale purge, and the single
conditional `PeriodicTasks.update_changed()` notification. -/
def runCore (now : Int) (jobs : List Job) (db0 : Db) : SyncOutcome :=
  let st := syncLoop now jobs ⟨db0, [], 0, 0, 0, [.infoSyncStart]⟩
  let stale := st.db.tasks.filter (isStale st.activeNames)
  let staleCount := stale.length
  let db2 :=
    if staleCount > 0 then
      { st.db with tasks := st.db.tasks.filter (fun r => !(isStale st.activeNames r)) }
    else st.db
  let changed2 := if staleCount > 0 then st.changed + staleCount else st.changed
  let log2 :=
    if staleCount > 0 then
      st.log ++ [.infoRemovedStale (stale.map (fun r => r.name))]
    else st.log
  let notifyN : Nat := if changed2 > 0 then 1 else 0
  let log3 :=
    if changed2 > 0 then log2 ++ [.infoSynced st.activeNames.length changed2]
    else log2 ++ [.infoUpToDate]
  ⟨true, db2, st.activeNames, changed2, st.created, st.updated, staleCount,
   notifyN, log3⟩

/-- `sync_periodic_tasks` (`sync.py` lines 22-185).  `alreadySynced` is the
module latch on entry; `tableExists` is whether the
`PeriodicTask.objects.count()` probe succeeds. -/
def sync_periodic_tasks (jobs : List Job) (now : Int) (alreadySynced : Bool)
    (tableExists : Bool) (db0 : Db) : SyncOutcome :=
  if alreadySynced then
    ⟨true, db0, [], 0, 0, 0, 0, 0, []⟩
  else if !tableExists then
    ⟨false, db0, [], 0, 0, 0, 0, 0, [.debugTablesMissing]⟩
  else
    runCore now jobs db0

/-- A declaration survives the two skip points (`continue` at `sync.py`
lines 110 and 117) and is actually reconciled: either the crontab path with
a well-formed schedule, or the interval path with the line-115 truthiness
test passing. -/
def jobValid (j : Job) : Bool :=
  match j.interval with
  | some s => s != 0 || crontabTruthy j.crontab
  | none =>
      match j.crontab with
      | some (.str s) =>
          match pySplit s with
          | [_, _, _, _, _] => true
          | _ => false
      | some (.fields _ _ _ _ _) => true
      | none => false

/-- The five-field key a crontab declaration deduplicates on (reachable only
when `interval` is absent): the split fields of a 5-field pattern string, or
the field map's values; `none` when the string is malformed. -/
def cronKeyOf (j : Job) : Option (String × String × String × String × String) :=
  match j.crontab with
  | some (.str s) =>
      match pySplit s with
      | [m, h, dom, moy, dow] => some (m, h, dom, moy, dow)
      | _ => none
  | some (.fields m h dom moy dow) => some (m, h, dom, moy, dow)
  | none => none

/-- Pure lookup half of `getOrCreateInterval`: the id of the first
`IntervalSchedule` row with the given key, if any. -/
def lookupIntervalId (db : Db) (every : Int) : Option Nat :=
  (db.intervals.find? (fun r => r.every == every && r.period == "seconds")).map
    (fun r => r.id)

/-- Pure lookup half of `getOrCreateCron`. -/
def lookupCronId (db : Db) (m h dom moy dow : String) : Option Nat :=
  (db.crontabs.find? (fun r =>
      r.minute == m && r.hour == h && r.dayOfMonth == dom &&
      r.monthOfYear == moy && r.dayOfWeek == dow)).map (fun r => r.id)

/-- The schedule slots a declaration resolves to against a store in which
its schedule rows already exist (pure lookups, no creation): mirrors
`buildSchedule` but returns `none` when a row is missing or the crontab
string is malformed. -/
def resolvedIds (db : Db) (j : Job) : Option (Option Nat × Option Nat) :=
  match j.interval with
  | some s =>
      match lookupIntervalId db s with
      | some i => some (some i, none)
      | none => none
  | none =>
      match j.crontab with
      | some (.str s) =>
          match pySplit s with
          | [m, h, dom, moy, dow] =>
              match lookupCronId db m h dom moy dow with
              | some c => some (none, some c)
              | none => none
          | _ => none
      | some (.fields m h dom moy dow) =>
          match lookupCronId db m h dom moy dow with
          | some c => some (none, some c)
          | none => none
      | none => some (none, none)

/-- All persisted rows with a given name (by uniqueness of
`PeriodicTask.name` there is at most one in a well-formed store). -/
def rowsNamed (db : Db) (n : String) : List TaskRow :=
  db.tasks.filter (fun r => r.name == n)

/-- A persisted row carries exactly the target state of declaration `j`
with resolved schedule slots `iSid`/`cSid`, except that `start_time` is
only required to be non-NULL (it is write-once in the code). -/
def rowAgreesJ (r : TaskRow) (j : Job) (iSid cSid : Option Nat) : Prop :=
  r.task = j.modulePath ∧ r.enabled = j.enabled ∧
  r.description = MANAGED_DESCRIPTION ∧
  r.args = j.args.getD "[]" ∧ r.kwargs = j.kwargs.getD "{}" ∧
  r.queue = j.queue ∧ r.priority = j.priority ∧
  r.startTime.isSome = true ∧
  r.interval = iSid ∧ r.crontab = cSid ∧ r.solar = none ∧ r.clocked = none

/-- Declaration `j` is settled in the store: its schedule rows exist, a row
with its identity exists, and every row with its identity already carries
the target state.  Processing a settled valid declaration is a no-op. -/
def jobSettled (db : Db) (j : Job) : Prop :=
  ∃ iSid cSid, resolvedIds db j = some (iSid, cSid) ∧
    rowsNamed db (taskNameOf j) ≠ [] ∧
    ∀ r ∈ rowsNamed db (taskNameOf j), rowAgreesJ r j iSid cSid

/-- Accumulator-free restatement of the per-job loop: the store after the
remaining declarations, the created/updated row counts, and the emitted
log lines.  `syncLoop` is this plus the threading of `active_task_names`
and `changed_count` (see `syncLoop_eq_loopRun`). -/
structure LoopAcc where
  db : Db
  created : Nat
  updated : Nat
  log : List LogEvent
deriving DecidableEq, Repr

/-- Run the per-job loop over a list of declarations, in the
accumulator-free form. -/
def loopRun (now : Int) : List Job → Db → LoopAcc
  | [], db => ⟨db, 0, 0, []⟩
  | j :: rest, db =>
      let s := jobStep now db j
      let a := loopRun now rest s.db
      ⟨a.db, s.createdD + a.created, s.updatedD + a.updated, s.logD ++ a.log⟩

/-! ### Concrete declaration sets used in counterexamples and witnesses -/

/-- A declaration with `interval=0` and nothing else (`@periodic_task(interval=0)`). -/
def jobIntervalZero : Job := { modulePath := "app.tasks.job0", interval := some 0 }

/-- A declaration with no schedule at all. -/
def jobNoSchedule : Job := { modulePath := "app.f" }

/-- A managed row for `app.f` persisted by some earlier run. -/
def rowAppF : TaskRow :=
  { name := "app.f", task := "app.f", enabled := true,
    description := MANAGED_DESCRIPTION, args := "[]", kwargs := "{}",
    queue := none, priority := none, startTime := some 0,
    interval := some 0, crontab := none, solar := none, clocked := none }

/-- Declaration `m.a` with `name="n"`, `interval=5`, enabled. -/
def jobDupA : Job :=
  { modulePath := "m.a", interval := some 5, name := some "n", enabled := true }

/-- Declaration `m.a` with the same `name="n"` and `interval=5` but disabled. -/
def jobDupB : Job :=
  { modulePath := "m.a", interval := some 5, name := some "n", enabled := false }

/-- A declaration supplying both a zero interval and an empty crontab string
(`@periodic_task(interval=0, crontab="")`). -/
def jobZeroAndEmptyCron : Job :=
  { modulePath := "m.f", interval := some 0, crontab := some (.str "") }

/-- A valid declaration: `interval=30`. -/
def jobThirty : Job := { modulePath := "tests.every_30_seconds", interval := some 30 }

/-- A second valid declaration with the same 30-second interval but a
distinct identity. -/
def jobThirtyB : Job := { modulePath := "tests.other_thirty", interval := some 30 }

/-- A valid declaration with a 5-field crontab string. -/
def jobCronA : Job :=
  { modulePath := "tests.every_two_hours_cron", crontab := some (.str "0 */2 * * *") }

/-- A second declaration with a crontab field map equal to `jobCronA`'s split
fields. -/
def jobCronB : Job :=
  { modulePath := "tests.cron_twin", crontab := some (.fields "0" "*/2" "*" "*" "*") }

/-- A declaration with a malformed (3-field) crontab string. -/
def jobBadCron : Job := { modulePath := "m.bad", crontab := some (.str "1 2 3") }

/-- A declaration supplying both a non-zero interval and a crontab string. -/
def jobBoth : Job :=
  { modulePath := "m.both", interval := some 30, crontab := some (.str "0 * * * *") }

/-! ### C8: missing store table aborts the batch and re-arms the gate -/

/-- C8: when the job table does not exist at the start of a reconciliation,
the run returns before any per-job processing: the store is untouched, the
only diagnostic is the debug-level "tables do not exist" line, there is no
notification and no change, and the once-only gate is left unarmed
(`false`) so that a later call can retry. -/
theorem missing_table_aborts_and_rearms_gate (jobs : List Job) (now : Int) (db0 : Db) :
    sync_periodic_tasks jobs now false false db0 =
      ⟨false, db0, [], 0, 0, 0, 0, 0, [.debugTablesMissing]⟩ := rfl

/-! ### C6: the change notification is sent exactly once, iff anything changed -/

/-- C6: in every run, `PeriodicTasks.update_changed()` is invoked exactly
once when the total change count is positive and never when it is zero; in
particular it is never invoked once per row. -/
theorem notify_once_iff_changed (jobs : List Job) (now : Int) (g t : Bool) (db0 : Db) :
    (sync_periodic_tasks jobs now g t db0).notifyCalls =
      if 0 < (sync_periodic_tasks jobs now g t db0).changed then 1 else 0 := by
  cases g <;> cases t <;> rfl

/-! ### C3: a zero-seconds interval declaration is not reconciled (code bug) -/

/-- C3 evaluation: for the declaration `interval=0`, the code first
find-or-creates the shared `IntervalSchedule(every=0, period="seconds")`
row, but then the truthiness test `if not (interval or crontab)` at
`sync.py` line 115 misfires (a zero `timedelta` is falsy), so the job is
skipped with the "has no schedule defined" warning and no job row is
created — contradicting the claim that every non-negative interval
(including zero) is reconciled. -/
theorem interval_zero_skipped_eval :
    (sync_periodic_tasks [jobIntervalZero] 7 false true emptyDb).db.tasks = [] ∧
    (sync_periodic_tasks [jobIntervalZero] 7 false true emptyDb).db.intervals =
      [⟨0, 0, "seconds"⟩] ∧
    LogEvent.warnNoSchedule "app.tasks.job0" ∈
      (sync_periodic_tasks [jobIntervalZero] 7 false true emptyDb).log ∧
    (sync_periodic_tasks [jobIntervalZero] 7 false true emptyDb).changed = 0 := by
  refine ⟨by decide, by decide, by decide, by decide⟩

/-! ### C1: idempotence — counterexample for duplicate identities -/

/-- C1 counterexample: two declarations that share the identity `"n"` (both
with the valid schedule `interval=5`) but disagree on `enabled`.  The
second reconciliation run immediately after the first (gate re-armed,
declarations unchanged) performs two additional updates and sends another
"schedule changed" notification, refuting the claim as stated for
arbitrary declaration sets whose jobs all have valid schedules. -/
theorem sync_twice_duplicate_names_not_idempotent :
    (∀ j ∈ [jobDupA, jobDupB], jobValid j = true) ∧
    (sync_periodic_tasks [jobDupA, jobDupB] 0 false true
        (sync_periodic_tasks [jobDupA, jobDupB] 0 false true emptyDb).db).updated = 2 ∧
    (sync_periodic_tasks [jobDupA, jobDupB] 0 false true
        (sync_periodic_tasks [jobDupA, jobDupB] 0 false true emptyDb).db).notifyCalls
      = 1 := by
  refine ⟨by decide, by decide, by decide⟩

/-! ### C2: purge of skipped jobs' rows — counterexample -/

/-- C2 counterexample: the declaration `app.f` has neither interval nor
crontab and is skipped, yet its identity is appended to
`active_task_names` *before* the skip (`sync.py` line 70), so the
previously persisted managed row `rowAppF` is **not** deleted by the
Purge-Stale step — refuting the claim that a skipped job's identity is
omitted from the active set and its managed row deleted. -/
theorem skipped_job_row_not_purged :
    (jobValid jobNoSchedule = false) ∧
    (sync_periodic_tasks [jobNoSchedule] 0 false true
        ⟨[rowAppF], [], [], 0, 0⟩).db.tasks = [rowAppF] ∧
    (sync_periodic_tasks [jobNoSchedule] 0 false true
        ⟨[rowAppF], [], [], 0, 0⟩).deleted = 0 ∧
    taskNameOf jobNoSchedule ∈
      (sync_periodic_tasks [jobNoSchedule] 0 false true
        ⟨[rowAppF], [], [], 0, 0⟩).activeNames := by
  refine ⟨by decide, by decide, by decide, by decide⟩

/-! ### C10: interval wins over crontab — counterexample for the zero edge -/

/-- C10 counterexample: for a declaration supplying both `interval=0` and
`crontab=""`, the claim says the interval slot of the target row is
populated and no warning is raised; in fact the line-115 truthiness test
sees two falsy values, so the job is skipped with a "has no schedule
defined" warning and no row is built at all. -/
theorem interval_zero_empty_crontab_skipped :
    (sync_periodic_tasks [jobZeroAndEmptyCron] 0 false true emptyDb).db.tasks = [] ∧
    LogEvent.warnNoSchedule "m.f" ∈
      (sync_periodic_tasks [jobZeroAndEmptyCron] 0 false true emptyDb).log := by
  refine ⟨by decide, by decide⟩

/-! ### Generic list helpers -/

theorem find_append_some {α : Type} {p : α → Bool} {l₁ : List α} (l₂ : List α)
    {a : α} (h : l₁.find? p = some a) : (l₁ ++ l₂).find? p = some a := by
  rw [List.find?_append, h]; rfl

theorem find_append_none {α : Type} {p : α → Bool} {l₁ : List α} (l₂ : List α)
    (h : l₁.find? p = none) : (l₁ ++ l₂).find? p = l₂.find? p := by
  rw [List.find?_append, h]; rfl

/-! ### get-or-create specifications -/

theorem getOrCreateInterval_spec (db : Db) (s : Int) :
    (getOrCreateInterval db s).2.tasks = db.tasks ∧
    (getOrCreateInterval db s).2.crontabs = db.crontabs ∧
    (∃ e, (getOrCreateInterval db s).2.intervals = db.intervals ++ e) ∧
    lookupIntervalId (getOrCreateInterval db s).2 s = some (getOrCreateInterval db s).1 := by
  unfold getOrCreateInterval lookupIntervalId
  cases hf : db.intervals.find? (fun r => r.every == s && r.period == "seconds") with
  | some r => simp [hf]
  | none =>
      refine ⟨rfl, rfl, ⟨[⟨db.nextIntervalId, s, "seconds"⟩], rfl⟩, ?_⟩
      simp only []
      rw [find_append_none _ hf]
      simp [List.find?]

theorem getOrCreateCron_spec (db : Db) (m h dom moy dow : String) :
    (getOrCreateCron db m h dom moy dow).2.tasks = db.tasks ∧
    (getOrCreateCron db m h dom moy dow).2.intervals = db.intervals ∧
    (∃ e, (getOrCreateCron db m h dom moy dow).2.crontabs = db.crontabs ++ e) ∧
    lookupCronId (getOrCreateCron db m h dom moy dow).2 m h dom moy dow =
      some (getOrCreateCron db m h dom moy dow).1 := by
  unfold getOrCreateCron lookupCronId
  cases hf : db.crontabs.find? (fun r =>
      r.minute == m && r.hour == h && r.dayOfMonth == dom &&
      r.monthOfYear == moy && r.dayOfWeek == dow) with
  | some r => simp [hf]
  | none =>
      refine ⟨rfl, rfl, ⟨[⟨db.nextCronId, m, h, dom, moy, dow⟩], rfl⟩, ?_⟩
      simp only []
      rw [find_append_none _ hf]
      simp [List.find?]

/-! ### buildSchedule specifications -/

theorem buildSchedule_ok_dbs {db : Db} {j : Job} {i c : Option Nat} {db1 : Db}
    (h : buildSchedule db j = .ok i c db1) :
    db1.tasks = db.tasks ∧ (∃ e, db1.intervals = db.intervals ++ e) ∧
    (∃ e, db1.crontabs = db.crontabs ++ e) := by
  unfold buildSchedule at h
  split at h
  · cases h
    rename_i s _
    obtain ⟨h1, h2, h3, _⟩ := getOrCreateInterval_spec db s
    exact ⟨h1, h3, ⟨[], by rw [h2, List.append_nil]⟩⟩
  · split at h
    · split at h
      · cases h
        rename_i m hh dom moy dow _
        obtain ⟨h1, h2, h3, _⟩ := getOrCreateCron_spec db m hh dom moy dow
        exact ⟨h1, ⟨[], by rw [h2, List.append_nil]⟩, h3⟩
      · cases h
    · cases h
      rename_i m hh dom moy dow _
      obtain ⟨h1, h2, h3, _⟩ := getOrCreateCron_spec db m hh dom moy dow
      exact ⟨h1, ⟨[], by rw [h2, List.append_nil]⟩, h3⟩
    · cases h
      exact ⟨rfl, ⟨[], (List.append_nil _).symm⟩, ⟨[], (List.append_nil _).symm⟩⟩

theorem buildSchedule_ok_resolved {db : Db} {j : Job} {i c : Option Nat} {db1 : Db}
    (h : buildSchedule db j = .ok i c db1) : resolvedIds db1 j = some (i, c) := by
  unfold buildSchedule at h
  split at h
  · cases h
    rename_i s hji
    obtain ⟨_, _, _, hl⟩ := getOrCreateInterval_spec db s
    simp [resolvedIds, hji, hl]
  · rename_i hji
    split at h
    · rename_i s hjc
      split at h
      · cases h
        rename_i m hh dom moy dow hsplit
        obtain ⟨_, _, _, hl⟩ := getOrCreateCron_spec db m hh dom moy dow
        simp [resolvedIds, hji, hjc, hsplit, hl]
      · cases h
    · rename_i m hh dom moy dow hjc
      cases h
      obtain ⟨_, _, _, hl⟩ := getOrCreateCron_spec db m hh dom moy dow
      simp [resolvedIds, hji, hjc, hl]
    · rename_i hjc
      cases h
      simp [resolvedIds, hji, hjc]

/-! ### resolvedIds: congruence, monotonicity, and the pure-lookup path -/

theorem resolvedIds_congr {db db2 : Db} (j : Job)
    (hI : db2.intervals = db.intervals) (hC : db2.crontabs = db.crontabs) :
    resolvedIds db2 j = resolvedIds db j := by
  unfold resolvedIds lookupIntervalId lookupCronId
  rw [hI, hC]

theorem lookupIntervalId_mono {db db2 : Db} {s : Int} {i : Nat} {e : List IntervalRow}
    (he : db2.intervals = db.intervals ++ e) (h : lookupIntervalId db s = some i) :
    lookupIntervalId db2 s = some i := by
  unfold lookupIntervalId at h ⊢
  cases hf : db.intervals.find? (fun r => r.every == s && r.period == "seconds") with
  | none => rw [hf] at h; cases h
  | some r =>
      rw [hf] at h
      rw [he, find_append_some _ hf]
      exact h

theorem lookupCronId_mono {db db2 : Db} {m h dom moy dow : String} {i : Nat}
    {e : List CronRow}
    (he : db2.crontabs = db.crontabs ++ e)
    (hl : lookupCronId db m h dom moy dow = some i) :
    lookupCronId db2 m h dom moy dow = some i := by
  unfold lookupCronId at hl ⊢
  cases hf : db.crontabs.find? (fun r =>
      r.minute == m && r.hour == h && r.dayOfMonth == dom &&
      r.monthOfYear == moy && r.dayOfWeek == dow) with
  | none => rw [hf] at hl; cases hl
  | some r =>
      rw [hf] at hl
      rw [he, find_append_some _ hf]
      exact hl

theorem resolvedIds_mono {db db2 : Db} {j : Job} {p : Option Nat × Option Nat}
    {e1 : List IntervalRow} {e2 : List CronRow}
    (he1 : db2.intervals = db.intervals ++ e1) (he2 : db2.crontabs = db.crontabs ++ e2)
    (h : resolvedIds db j = some p) : resolvedIds db2 j = some p := by
  unfold resolvedIds at h ⊢
  split at h
  · rename_i s hji
    split at h
    · rename_i i hl
      cases h
      rw [lookupIntervalId_mono he1 hl]
    · cases h
  · rename_i hji
    split at h
    · rename_i s hjc
      split at h
      · rename_i m hh dom moy dow hsplit
        split at h
        · rename_i c hl
          cases h
          rw [lookupCronId_mono he2 hl]
        · cases h
      · cases h
    · rename_i m hh dom moy dow hjc
      split at h
      · rename_i c hl
        cases h
        rw [lookupCronId_mono he2 hl]
      · cases h
    · exact h

theorem pySplit_empty : pySplit "" = [] := rfl

theorem jobValid_truthy {j : Job} (hv : jobValid j = true) :
    (intervalTruthy j.interval || crontabTruthy j.crontab) = true := by
  unfold jobValid at hv
  split at hv
  · rename_i s hji
    rw [hji]
    simpa [intervalTruthy] using hv
  · rename_i hji
    split at hv
    · rename_i s hjc
      split at hv
      · rename_i m hh dom moy dow hsplit
        have hsne : s ≠ "" := by
          intro he
          subst he
          rw [pySplit_empty] at hsplit
          cases hsplit
        rw [hji, hjc]
        simp [intervalTruthy, crontabTruthy, hsne]
      · cases hv
    · rename_i m hh dom moy dow hjc
      rw [hji, hjc]
      simp [intervalTruthy, crontabTruthy]
    · cases hv

theorem buildSchedule_of_resolved {db : Db} {j : Job} {i c : Option Nat}
    (h : resolvedIds db j = some (i, c)) : buildSchedule db j = .ok i c db := by
  unfold resolvedIds at h
  split at h
  · rename_i s hji
    split at h
    · rename_i i0 hl
      cases h
      unfold lookupIntervalId at hl
      unfold buildSchedule
      rw [hji]
      dsimp only
      cases hf : db.intervals.find? (fun r => r.every == s && r.period == "seconds") with
      | none => rw [hf] at hl; cases hl
      | some r =>
          rw [hf] at hl
          cases hl
          unfold getOrCreateInterval
          rw [hf]
    · cases h
  · rename_i hji
    split at h
    · rename_i s hjc
      split at h
      · rename_i m hh dom moy dow hsplit
        split at h
        · rename_i c0 hl
          cases h
          unfold lookupCronId at hl
          unfold buildSchedule
          rw [hji, hjc]
          dsimp only
          rw [hsplit]
          dsimp only
          cases hf : db.crontabs.find? (fun r =>
              r.minute == m && r.hour == hh && r.dayOfMonth == dom &&
              r.monthOfYear == moy && r.dayOfWeek == dow) with
          | none => rw [hf] at hl; cases hl
          | some r =>
              rw [hf] at hl
              cases hl
              unfold getOrCreateCron
              rw [hf]
        · cases h
      · cases h
    · rename_i m hh dom moy dow hjc
      split at h
      · rename_i c0 hl
        cases h
        unfold lookupCronId at hl
        unfold buildSchedule
        rw [hji, hjc]
        dsimp only
        cases hf : db.crontabs.find? (fun r =>
            r.minute == m && r.hour == hh && r.dayOfMonth == dom &&
            r.monthOfYear == moy && r.dayOfWeek == dow) with
        | none => rw [hf] at hl; cases hl
        | some r =>
            rw [hf] at hl
            cases hl
            unfold getOrCreateCron
            rw [hf]
      · cases h
    · rename_i hjc
      cases h
      unfold buildSchedule
      rw [hji, hjc]

/-! ### Field-diff characterisation and row-target agreement -/

theorem fieldsDiffer_eq_false_iff (r : TaskRow) (d : Defaults) :
    fieldsDiffer r d = false ↔
      (r.task = d.task ∧ r.enabled = d.enabled ∧ r.description = d.description ∧
       r.args = d.args ∧ r.kwargs = d.kwargs ∧ r.queue = d.queue ∧
       r.priority = d.priority ∧
       (r.startTime.isSome = true ∨ r.startTime = d.startTime) ∧
       r.interval = d.interval ∧ r.crontab = d.crontab ∧
       r.solar = d.solar ∧ r.clocked = d.clocked) := by
  unfold fieldsDiffer
  cases hst : r.startTime with
  | none => simp [hst, and_assoc]
  | some t => simp [hst, and_assoc]

theorem updatedRow_name (r : TaskRow) (d : Defaults) : (updatedRow r d).name = r.name := rfl

theorem rowOfDefaults_agrees (now : Int) (j : Job) (i c : Option Nat) :
    rowAgreesJ (rowOfDefaults (taskNameOf j) (mkDefaults now j i c)) j i c := by
  unfold rowAgreesJ rowOfDefaults mkDefaults
  simp

theorem updatedRow_agrees (now : Int) (j : Job) (i c : Option Nat) (r : TaskRow) :
    rowAgreesJ (updatedRow r (mkDefaults now j i c)) j i c := by
  unfold rowAgreesJ updatedRow mkDefaults
  refine ⟨rfl, rfl, rfl, rfl, rfl, rfl, rfl, ?_, rfl, rfl, rfl, rfl⟩
  cases hs : r.startTime.isSome <;> simp [hs]

theorem differ_false_agrees {now : Int} {r : TaskRow} {j : Job} {i c : Option Nat}
    (h : fieldsDiffer r (mkDefaults now j i c) = false) : rowAgreesJ r j i c := by
  rw [fieldsDiffer_eq_false_iff] at h
  obtain ⟨h1, h2, h3, h4, h5, h6, h7, h8, h9, h10, h11, h12⟩ := h
  refine ⟨h1, h2, h3, h4, h5, h6, h7, ?_, h9, h10, h11, h12⟩
  rcases h8 with h8 | h8
  · exact h8
  · rw [h8]
    rfl

theorem agrees_differ_false {now : Int} {r : TaskRow} {j : Job} {i c : Option Nat}
    (h : rowAgreesJ r j i c) : fieldsDiffer r (mkDefaults now j i c) = false := by
  obtain ⟨h1, h2, h3, h4, h5, h6, h7, h8, h9, h10, h11, h12⟩ := h
  rw [fieldsDiffer_eq_false_iff]
  exact ⟨h1, h2, h3, h4, h5, h6, h7, Or.inl h8, h9, h10, h11, h12⟩

/-! ### List helpers for rows -/

theorem filter_ne_nil_of_mem {α : Type} {p : α → Bool} {l : List α} {a : α}
    (ha : a ∈ l) (hp : p a = true) : l.filter p ≠ [] := by
  intro h
  rw [List.filter_eq_nil_iff] at h
  exact absurd hp (by simpa using h a ha)

theorem rowsNamed_single {l : List TaskRow} {n : String} {r : TaskRow}
    (hnd : (l.map (fun r => r.name)).Nodup)
    (hf : l.find? (fun r => r.name == n) = some r) :
    l.filter (fun r => r.name == n) = [r] := by
  induction l with
  | nil => cases hf
  | cons x xs ih =>
      rw [List.map_cons, List.nodup_cons] at hnd
      cases hpx : (x.name == n) with
      | true =>
          have hfc : List.find? (fun r => r.name == n) (x :: xs) = some x := by
            simp [List.find?_cons, hpx]
          rw [hfc] at hf
          have hxr : x = r := by injection hf
          subst hxr
          have hflt : List.filter (fun r => r.name == n) (x :: xs) =
              x :: List.filter (fun r => r.name == n) xs := by
            simp [List.filter_cons, hpx]
          rw [hflt]
          have hxs : xs.filter (fun r => r.name == n) = [] := by
            rw [List.filter_eq_nil_iff]
            intro y hy hpy
            apply hnd.1
            have hyn : y.name = n := by simpa using hpy
            have hxn : x.name = n := by simpa using hpx
            rw [hxn, ← hyn]
            exact List.mem_map_of_mem _ hy
          rw [hxs]
      | false =>
          have hfc : List.find? (fun r => r.name == n) (x :: xs) =
              List.find? (fun r => r.name == n) xs := by
            simp [List.find?_cons, hpx]
          rw [hfc] at hf
          have hflt : List.filter (fun r => r.name == n) (x :: xs) =
              List.filter (fun r => r.name == n) xs := by
            simp [List.filter_cons, hpx]
          rw [hflt]
          exact ih hnd.2 hf

/-! ### diffOrCreate: store effects -/

theorem diffOrCreate_sched (now : Int) (j : Job) (i c : Option Nat) (db1 : Db) :
    (diffOrCreate now j i c db1).db.intervals = db1.intervals ∧
    (diffOrCreate now j i c db1).db.crontabs = db1.crontabs := by
  unfold diffOrCreate
  dsimp only
  split
  · exact ⟨rfl, rfl⟩
  · split
    · exact ⟨rfl, rfl⟩
    · exact ⟨rfl, rfl⟩

theorem diffOrCreate_rowsNamed_other (now : Int) (j : Job) (i c : Option Nat)
    (db1 : Db) {n : String} (hne : taskNameOf j ≠ n) :
    rowsNamed (diffOrCreate now j i c db1).db n = rowsNamed db1 n := by
  unfold diffOrCreate rowsNamed
  dsimp only
  split
  · rw [List.filter_append]
    have h0 : List.filter (fun r => r.name == n)
        [rowOfDefaults (taskNameOf j) (mkDefaults now j i c)] = [] := by
      simp [rowOfDefaults, hne]
    rw [h0, List.append_nil]
  · split
    · rw [List.filter_map]
      have hcong : List.filter ((fun r => r.name == n) ∘
          (fun r2 => if r2.name == taskNameOf j then
              updatedRow r2 (mkDefaults now j i c) else r2)) db1.tasks =
          List.filter (fun r => r.name == n) db1.tasks := by
        apply List.filter_congr
        intro a _
        cases haj : (a.name == taskNameOf j)
        · have hane : ¬(a.name = taskNameOf j) := by simpa using haj
          simp [hane]
        · have hae : a.name = taskNameOf j := by simpa using haj
          simp [hae, updatedRow_name]
      rw [hcong]
      have hid : ∀ a ∈ List.filter (fun r => r.name == n) db1.tasks,
          (fun r2 => if r2.name == taskNameOf j then
              updatedRow r2 (mkDefaults now j i c) else r2) a = id a := by
        intro a ha
        have hpa := List.of_mem_filter ha
        have hane : ¬(a.name = taskNameOf j) := by
          rw [beq_iff_eq] at hpa
          rw [hpa]
          exact fun hh => hne hh.symm
        simp [hane]
      rw [List.map_congr_left hid, List.map_id]
    · rfl

theorem diffOrCreate_names (now : Int) (j : Job) (i c : Option Nat) (db1 : Db) :
    ((diffOrCreate now j i c db1).db.tasks.map (fun r => r.name) =
       db1.tasks.map (fun r => r.name)) ∨
    (((diffOrCreate now j i c db1).db.tasks.map (fun r => r.name) =
       db1.tasks.map (fun r => r.name) ++ [taskNameOf j]) ∧
     ¬ taskNameOf j ∈ db1.tasks.map (fun r => r.name)) := by
  unfold diffOrCreate
  dsimp only
  split
  · rename_i hf
    right
    constructor
    · simp [rowOfDefaults]
    · rw [List.find?_eq_none] at hf
      intro hmem
      obtain ⟨r, hr, hrn⟩ := List.mem_map.mp hmem
      exact hf r hr (by simp [hrn])
  · split
    · left
      rw [List.map_map]
      apply List.map_congr_left
      intro a _
      cases haj : (a.name == taskNameOf j)
      · have hane : ¬(a.name = taskNameOf j) := by simpa using haj
        simp [hane]
      · have hae : a.name = taskNameOf j := by simpa using haj
        simp [hae, updatedRow_name]
    · left
      rfl

theorem diffOrCreate_eq_create {db1 : Db} {j : Job} (now : Int) (i c : Option Nat)
    (hf : db1.tasks.find? (fun r => r.name == taskNameOf j) = none) :
    diffOrCreate now j i c db1 =
      ⟨{ db1 with tasks := db1.tasks ++
          [rowOfDefaults (taskNameOf j) (mkDefaults now j i c)] }, 1, 0, []⟩ := by
  unfold diffOrCreate
  dsimp only
  rw [hf]

theorem diffOrCreate_eq_update {db1 : Db} {j : Job} {r0 : TaskRow} (now : Int)
    (i c : Option Nat)
    (hf : db1.tasks.find? (fun r => r.name == taskNameOf j) = some r0)
    (hd : fieldsDiffer r0 (mkDefaults now j i c) = true) :
    diffOrCreate now j i c db1 =
      ⟨{ db1 with tasks := db1.tasks.map (fun r2 =>
          if r2.name == taskNameOf j then updatedRow r2 (mkDefaults now j i c) else r2) },
       0, 1, []⟩ := by
  unfold diffOrCreate
  dsimp only
  rw [hf]
  dsimp only
  rw [if_pos hd]

theorem diffOrCreate_eq_nochange {db1 : Db} {j : Job} {r0 : TaskRow} (now : Int)
    (i c : Option Nat)
    (hf : db1.tasks.find? (fun r => r.name == taskNameOf j) = some r0)
    (hd : fieldsDiffer r0 (mkDefaults now j i c) = false) :
    diffOrCreate now j i c db1 = ⟨db1, 0, 0, []⟩ := by
  unfold diffOrCreate
  dsimp only
  rw [hf]
  dsimp only
  rw [if_neg (by simp [hd])]

theorem diffOrCreate_settles (now : Int) (j : Job) {i c : Option Nat} (db1 : Db)
    (hres : resolvedIds db1 j = some (i, c))
    (hnd : (db1.tasks.map (fun r => r.name)).Nodup) :
    jobSettled (diffOrCreate now j i c db1).db j := by
  have hsch := diffOrCreate_sched now j i c db1
  have hres2 : resolvedIds (diffOrCreate now j i c db1).db j = some (i, c) := by
    rw [resolvedIds_congr j hsch.1 hsch.2]
    exact hres
  refine ⟨i, c, hres2, ?_⟩
  cases hf : db1.tasks.find? (fun r => r.name == taskNameOf j) with
  | none =>
      rw [diffOrCreate_eq_create now i c hf]
      have hrows : List.filter (fun r => r.name == taskNameOf j)
          (db1.tasks ++ [rowOfDefaults (taskNameOf j) (mkDefaults now j i c)]) =
          [rowOfDefaults (taskNameOf j) (mkDefaults now j i c)] := by
        rw [List.filter_append]
        have h0 : List.filter (fun r => r.name == taskNameOf j) db1.tasks = [] := by
          rw [List.filter_eq_nil_iff]
          rw [List.find?_eq_none] at hf
          exact hf
        rw [h0]
        simp [rowOfDefaults]
      constructor
      · unfold rowsNamed
        dsimp only
        rw [hrows]
        simp
      · intro r hr
        unfold rowsNamed at hr
        dsimp only at hr
        rw [hrows] at hr
        rw [List.mem_singleton] at hr
        subst hr
        exact rowOfDefaults_agrees now j i c
  | some r0 =>
      have hp0 := List.find?_some hf
      have hm0 := List.mem_of_find?_eq_some hf
      cases hd : fieldsDiffer r0 (mkDefaults now j i c) with
      | true =>
          rw [diffOrCreate_eq_update now i c hf hd]
          have hrows : List.filter (fun r => r.name == taskNameOf j)
              (db1.tasks.map (fun r2 =>
                if r2.name == taskNameOf j then
                  updatedRow r2 (mkDefaults now j i c) else r2)) =
              (List.filter (fun r => r.name == taskNameOf j) db1.tasks).map
                (fun r => updatedRow r (mkDefaults now j i c)) := by
            rw [List.filter_map]
            have hcong : List.filter ((fun r => r.name == taskNameOf j) ∘
                (fun r2 => if r2.name == taskNameOf j then
                    updatedRow r2 (mkDefaults now j i c) else r2)) db1.tasks =
                List.filter (fun r => r.name == taskNameOf j) db1.tasks := by
              apply List.filter_congr
              intro a _
              cases haj : (a.name == taskNameOf j)
              · have hane : ¬(a.name = taskNameOf j) := by simpa using haj
                simp [hane]
              · have hae : a.name = taskNameOf j := by simpa using haj
                simp [hae, updatedRow_name]
            rw [hcong]
            apply List.map_congr_left
            intro a ha
            have hpa := List.of_mem_filter ha
            have hae : a.name = taskNameOf j := by simpa using hpa
            simp [hae]
          have hmem0 : r0 ∈ List.filter (fun r => r.name == taskNameOf j) db1.tasks := by
            rw [List.mem_filter]
            exact ⟨hm0, hp0⟩
          constructor
          · unfold rowsNamed
            dsimp only
            rw [hrows]
            intro hnil
            rw [List.map_eq_nil_iff] at hnil
            rw [hnil] at hmem0
            cases hmem0
          · intro r hr
            unfold rowsNamed at hr
            dsimp only at hr
            rw [hrows] at hr
            obtain ⟨r1, _, hr1⟩ := List.mem_map.mp hr
            subst hr1
            exact updatedRow_agrees now j i c r1
      | false =>
          rw [diffOrCreate_eq_nochange now i c hf hd]
          have hone : rowsNamed db1 (taskNameOf j) = [r0] := rowsNamed_single hnd hf
          constructor
          · rw [hone]
            simp
          · intro r hr
            rw [hone] at hr
            rw [List.mem_singleton] at hr
            subst hr
            exact differ_false_agrees hd

/-! ### jobStep: branch shapes and structural effects -/

theorem jobStep_eq_invalid {db : Db} {j : Job} {s : String} (now : Int)
    (hb : buildSchedule db j = .invalidCron s) :
    jobStep now db j = ⟨db, 0, 0, [.warnInvalidCrontab j.modulePath s]⟩ := by
  unfold jobStep
  dsimp only
  rw [hb]

theorem jobStep_eq_skip {db : Db} {j : Job} {i c : Option Nat} {db1 : Db} (now : Int)
    (hb : buildSchedule db j = .ok i c db1)
    (ht : (intervalTruthy j.interval || crontabTruthy j.crontab) = false) :
    jobStep now db j = ⟨db1, 0, 0, [.warnNoSchedule j.modulePath]⟩ := by
  unfold jobStep
  dsimp only
  rw [hb]
  dsimp only
  rw [ht]
  rfl

theorem jobStep_eq_go {db : Db} {j : Job} {i c : Option Nat} {db1 : Db} (now : Int)
    (hb : buildSchedule db j = .ok i c db1)
    (ht : (intervalTruthy j.interval || crontabTruthy j.crontab) = true) :
    jobStep now db j = diffOrCreate now j i c db1 := by
  unfold jobStep
  dsimp only
  rw [hb]
  dsimp only
  rw [ht]
  rfl

theorem jobStep_db_extends (now : Int) (db : Db) (j : Job) :
    (∃ e, (jobStep now db j).db.intervals = db.intervals ++ e) ∧
    (∃ e, (jobStep now db j).db.crontabs = db.crontabs ++ e) := by
  cases hb : buildSchedule db j with
  | invalidCron s =>
      rw [jobStep_eq_invalid now hb]
      exact ⟨⟨[], (List.append_nil _).symm⟩, ⟨[], (List.append_nil _).symm⟩⟩
  | ok i c db1 =>
      obtain ⟨htsk, hi, hc⟩ := buildSchedule_ok_dbs hb
      cases htr : (intervalTruthy j.interval || crontabTruthy j.crontab) with
      | false =>
          rw [jobStep_eq_skip now hb htr]
          exact ⟨hi, hc⟩
      | true =>
          rw [jobStep_eq_go now hb htr]
          have hs := diffOrCreate_sched now j i c db1
          obtain ⟨e1, he1⟩ := hi
          obtain ⟨e2, he2⟩ := hc
          exact ⟨⟨e1, by rw [hs.1, he1]⟩, ⟨e2, by rw [hs.2, he2]⟩⟩

theorem jobStep_rowsNamed_other (now : Int) (db : Db) (j : Job) {n : String}
    (hne : taskNameOf j ≠ n) :
    rowsNamed (jobStep now db j).db n = rowsNamed db n := by
  cases hb : buildSchedule db j with
  | invalidCron s => rw [jobStep_eq_invalid now hb]
  | ok i c db1 =>
      obtain ⟨htsk, _, _⟩ := buildSchedule_ok_dbs hb
      cases htr : (intervalTruthy j.interval || crontabTruthy j.crontab) with
      | false =>
          rw [jobStep_eq_skip now hb htr]
          unfold rowsNamed
          rw [htsk]
      | true =>
          rw [jobStep_eq_go now hb htr,
            diffOrCreate_rowsNamed_other now j i c db1 hne]
          unfold rowsNamed
          rw [htsk]

theorem jobStep_names (now : Int) (db : Db) (j : Job) :
    ((jobStep now db j).db.tasks.map (fun r => r.name) =
       db.tasks.map (fun r => r.name)) ∨
    (((jobStep now db j).db.tasks.map (fun r => r.name) =
       db.tasks.map (fun r => r.name) ++ [taskNameOf j]) ∧
     ¬ taskNameOf j ∈ db.tasks.map (fun r => r.name)) := by
  cases hb : buildSchedule db j with
  | invalidCron s =>
      rw [jobStep_eq_invalid now hb]
      left
      rfl
  | ok i c db1 =>
      obtain ⟨htsk, _, _⟩ := buildSchedule_ok_dbs hb
      cases htr : (intervalTruthy j.interval || crontabTruthy j.crontab) with
      | false =>
          rw [jobStep_eq_skip now hb htr]
          left
          rw [htsk]
      | true =>
          rw [jobStep_eq_go now hb htr]
          rcases diffOrCreate_names now j i c db1 with h | ⟨h1, h2⟩
          · left
            rw [h, htsk]
          · right
            rw [htsk] at h1 h2
            exact ⟨h1, h2⟩

theorem jobStep_nodup (now : Int) (db : Db) (j : Job)
    (h : (db.tasks.map (fun r => r.name)).Nodup) :
    ((jobStep now db j).db.tasks.map (fun r => r.name)).Nodup := by
  rcases jobStep_names now db j with he | ⟨he, hmem⟩
  · rw [he]
    exact h
  · rw [he, List.nodup_append]
    refine ⟨h, List.nodup_singleton _, ?_⟩
    intro a ha hb
    rw [List.mem_singleton] at hb
    subst hb
    exact hmem ha

theorem jobStep_name_mem (now : Int) (db : Db) (j : Job) {n : String}
    (h : n ∈ db.tasks.map (fun r => r.name)) :
    n ∈ (jobStep now db j).db.tasks.map (fun r => r.name) := by
  rcases jobStep_names now db j with he | ⟨he, _⟩
  · rw [he]
    exact h
  · rw [he]
    exact List.mem_append_left _ h

theorem jobStep_preserves_settled (now : Int) (db : Db) (k j : Job)
    (hne : taskNameOf k ≠ taskNameOf j) (hs : jobSettled db j) :
    jobSettled (jobStep now db k).db j := by
  obtain ⟨i, c, hres, hnem, hall⟩ := hs
  obtain ⟨⟨e1, he1⟩, ⟨e2, he2⟩⟩ := jobStep_db_extends now db k
  have hrs := jobStep_rowsNamed_other now db k hne
  exact ⟨i, c, resolvedIds_mono he1 he2 hres,
    by rw [hrs]; exact hnem, by rw [hrs]; exact hall⟩

theorem jobStep_noop (now : Int) (db : Db) (j : Job) (hv : jobValid j = true)
    (hs : jobSettled db j) : jobStep now db j = ⟨db, 0, 0, []⟩ := by
  obtain ⟨i, c, hres, hnem, hall⟩ := hs
  have hb := buildSchedule_of_resolved hres
  have htr := jobValid_truthy hv
  rw [jobStep_eq_go now hb htr]
  have hex : ∃ r0, db.tasks.find? (fun r => r.name == taskNameOf j) = some r0 := by
    cases hne2 : db.tasks.find? (fun r => r.name == taskNameOf j) with
    | none =>
        exfalso
        apply hnem
        unfold rowsNamed
        rw [List.filter_eq_nil_iff]
        rw [List.find?_eq_none] at hne2
        exact hne2
    | some r0 => exact ⟨r0, rfl⟩
  obtain ⟨r0, hf⟩ := hex
  have hp := List.find?_some hf
  have hm := List.mem_of_find?_eq_some hf
  have hmem : r0 ∈ rowsNamed db (taskNameOf j) := by
    unfold rowsNamed
    rw [List.mem_filter]
    exact ⟨hm, hp⟩
  exact diffOrCreate_eq_nochange now i c hf (agrees_differ_false (hall r0 hmem))

theorem jobStep_establishes (now : Int) (db : Db) (j : Job) (hv : jobValid j = true)
    (hnd : (db.tasks.map (fun r => r.name)).Nodup) :
    jobSettled (jobStep now db j).db j := by
  have htr := jobValid_truthy hv
  cases hji : j.interval with
  | some s =>
      have hb : buildSchedule db j =
          .ok (some (getOrCreateInterval db s).1) none (getOrCreateInterval db s).2 := by
        unfold buildSchedule
        rw [hji]
      rw [jobStep_eq_go now hb htr]
      obtain ⟨h1, h2, h3, hl⟩ := getOrCreateInterval_spec db s
      apply diffOrCreate_settles
      · simp [resolvedIds, hji, hl]
      · rw [h1]
        exact hnd
  | none =>
      cases hjc : j.crontab with
      | none =>
          exfalso
          unfold jobValid at hv
          rw [hji] at hv
          dsimp only at hv
          rw [hjc] at hv
          dsimp only at hv
          cases hv
      | some cr =>
          cases cr with
          | str s =>
              have h5 : ∃ a b c2 d2 e2, pySplit s = [a, b, c2, d2, e2] := by
                unfold jobValid at hv
                rw [hji] at hv
                dsimp only at hv
                rw [hjc] at hv
                dsimp only at hv
                revert hv
                split
                · rename_i m hh dom moy dow hsp
                  intro _
                  exact ⟨m, hh, dom, moy, dow, hsp⟩
                · intro hv
                  cases hv
              obtain ⟨m, hh, dom, moy, dow, hsp⟩ := h5
              have hb : buildSchedule db j =
                  .ok none (some (getOrCreateCron db m hh dom moy dow).1)
                    (getOrCreateCron db m hh dom moy dow).2 := by
                unfold buildSchedule
                rw [hji]
                dsimp only
                rw [hjc]
                dsimp only
                rw [hsp]
              rw [jobStep_eq_go now hb htr]
              obtain ⟨h1, h2, h3, hl⟩ := getOrCreateCron_spec db m hh dom moy dow
              apply diffOrCreate_settles
              · simp [resolvedIds, hji, hjc, hsp, hl]
              · rw [h1]
                exact hnd
          | fields m hh dom moy dow =>
              have hb : buildSchedule db j =
                  .ok none (some (getOrCreateCron db m hh dom moy dow).1)
                    (getOrCreateCron db m hh dom moy dow).2 := by
                unfold buildSchedule
                rw [hji]
                dsimp only
                rw [hjc]
              rw [jobStep_eq_go now hb htr]
              obtain ⟨h1, h2, h3, hl⟩ := getOrCreateCron_spec db m hh dom moy dow
              apply diffOrCreate_settles
              · simp [resolvedIds, hji, hjc, hl]
              · rw [h1]
                exact hnd

/-! ### Loop-level lemmas -/

theorem loopRun_nil (now : Int) (db : Db) : loopRun now [] db = ⟨db, 0, 0, []⟩ := rfl

theorem loopRun_cons (now : Int) (j : Job) (rest : List Job) (db : Db) :
    loopRun now (j :: rest) db =
      ⟨(loopRun now rest (jobStep now db j).db).db,
       (jobStep now db j).createdD + (loopRun now rest (jobStep now db j).db).created,
       (jobStep now db j).updatedD + (loopRun now rest (jobStep now db j).db).updated,
       (jobStep now db j).logD ++ (loopRun now rest (jobStep now db j).db).log⟩ := rfl

theorem syncLoop_eq_loopRun (now : Int) (jobs : List Job) :
    ∀ st : LoopState, syncLoop now jobs st =
      ⟨(loopRun now jobs st.db).db,
       st.activeNames ++ jobs.map taskNameOf,
       st.changed + ((loopRun now jobs st.db).created + (loopRun now jobs st.db).updated),
       st.created + (loopRun now jobs st.db).created,
       st.updated + (loopRun now jobs st.db).updated,
       st.log ++ (loopRun now jobs st.db).log⟩ := by
  induction jobs with
  | nil =>
      intro st
      simp [syncLoop, loopRun_nil]
  | cons j rest ih =>
      intro st
      have hstep : syncLoop now (j :: rest) st = syncLoop now rest (processJob now st j) := rfl
      rw [hstep, ih]
      unfold processJob
      dsimp only
      rw [loopRun_cons]
      dsimp only
      simp only [LoopState.mk.injEq, List.map_cons]
      refine ⟨trivial, by simp [List.append_assoc], by omega, by omega, by omega,
        by simp [List.append_assoc]⟩

theorem loopRun_append (now : Int) (l1 l2 : List Job) :
    ∀ db : Db, loopRun now (l1 ++ l2) db =
      ⟨(loopRun now l2 (loopRun now l1 db).db).db,
       (loopRun now l1 db).created + (loopRun now l2 (loopRun now l1 db).db).created,
       (loopRun now l1 db).updated + (loopRun now l2 (loopRun now l1 db).db).updated,
       (loopRun now l1 db).log ++ (loopRun now l2 (loopRun now l1 db).db).log⟩ := by
  induction l1 with
  | nil =>
      intro db
      simp [loopRun_nil]
  | cons j rest ih =>
      intro db
      rw [List.cons_append, loopRun_cons, ih, loopRun_cons]
      dsimp only
      simp [Nat.add_assoc, List.append_assoc]

theorem loopRun_nodup (now : Int) (jobs : List Job) :
    ∀ db : Db, (db.tasks.map (fun r => r.name)).Nodup →
    ((loopRun now jobs db).db.tasks.map (fun r => r.name)).Nodup := by
  induction jobs with
  | nil => exact fun db h => h
  | cons j rest ih =>
      intro db h
      rw [loopRun_cons]
      exact ih _ (jobStep_nodup now db j h)

theorem loopRun_preserves_settled (now : Int) (rest : List Job) :
    ∀ (db : Db) (j : Job), (∀ k ∈ rest, taskNameOf k ≠ taskNameOf j) →
    jobSettled db j → jobSettled (loopRun now rest db).db j := by
  induction rest with
  | nil => exact fun db j _ hs => hs
  | cons k rr ih =>
      intro db j hns hs
      rw [loopRun_cons]
      exact ih _ j (fun k2 hk2 => hns k2 (List.mem_cons_of_mem _ hk2))
        (jobStep_preserves_settled now db k j (hns k (List.mem_cons_self _ _)) hs)

theorem loopRun_settles (now : Int) (jobs : List Job) :
    ∀ db : Db, (db.tasks.map (fun r => r.name)).Nodup →
    (jobs.map taskNameOf).Nodup →
    ∀ j ∈ jobs, jobValid j = true → jobSettled (loopRun now jobs db).db j := by
  induction jobs with
  | nil =>
      intro db _ _ j hj
      cases hj
  | cons k rest ih =>
      intro db hnd hjn j hj hv
      rw [List.map_cons, List.nodup_cons] at hjn
      rw [loopRun_cons]
      rcases List.mem_cons.mp hj with rfl | hj2
      · refine loopRun_preserves_settled now rest _ j ?_
          (jobStep_establishes now db j hv hnd)
        intro k2 hk2 heq
        apply hjn.1
        rw [← heq]
        exact List.mem_map_of_mem _ hk2
      · exact ih _ (jobStep_nodup now db k hnd) hjn.2 j hj2 hv

theorem loopRun_noop (now : Int) (jobs : List Job) (db : Db)
    (hv : ∀ j ∈ jobs, jobValid j = true)
    (hs : ∀ j ∈ jobs, jobSettled db j) :
    loopRun now jobs db = ⟨db, 0, 0, []⟩ := by
  induction jobs with
  | nil => rfl
  | cons k rest ih =>
      rw [loopRun_cons,
        jobStep_noop now db k (hv k (List.mem_cons_self _ _)) (hs k (List.mem_cons_self _ _))]
      dsimp only
      rw [ih (fun j hj => hv j (List.mem_cons_of_mem _ hj))
        (fun j hj => hs j (List.mem_cons_of_mem _ hj))]
      rfl

/-! ### runCore: unfolded form and projections -/

theorem runCore_unfold (now : Int) (jobs : List Job) (db0 : Db) :
    runCore now jobs db0 =
      (let acc := loopRun now jobs db0
       let active := jobs.map taskNameOf
       let stale := acc.db.tasks.filter (isStale active)
       let db2 := if stale.length > 0 then
           { acc.db with tasks := acc.db.tasks.filter (fun r => !(isStale active r)) }
         else acc.db
       let changed2 := if stale.length > 0 then
           acc.created + acc.updated + stale.length
         else acc.created + acc.updated
       let log2 := if stale.length > 0 then
           LogEvent.infoSyncStart ::
             (acc.log ++ [.infoRemovedStale (stale.map (fun r => r.name))])
         else LogEvent.infoSyncStart :: acc.log
       ⟨true, db2, active, changed2, acc.created, acc.updated, stale.length,
        (if changed2 > 0 then 1 else 0),
        (if changed2 > 0 then log2 ++ [.infoSynced active.length changed2]
         else log2 ++ [.infoUpToDate])⟩) := by
  unfold runCore
  rw [syncLoop_eq_loopRun]
  dsimp only
  simp only [List.nil_append, Nat.zero_add]
  rfl

theorem runCore_active (now : Int) (jobs : List Job) (db0 : Db) :
    (runCore now jobs db0).activeNames = jobs.map taskNameOf := by
  rw [runCore_unfold]

theorem runCore_tasks (now : Int) (jobs : List Job) (db0 : Db) :
    (runCore now jobs db0).db.tasks =
      (loopRun now jobs db0).db.tasks.filter
        (fun r => !(isStale (jobs.map taskNameOf) r)) := by
  rw [runCore_unfold]
  dsimp only
  split
  · rfl
  · rename_i hlen
    have hnil : (loopRun now jobs db0).db.tasks.filter
        (isStale (jobs.map taskNameOf)) = [] := by
      rw [← List.length_eq_zero]
      omega
    rw [List.filter_eq_nil_iff] at hnil
    symm
    rw [List.filter_eq_self]
    intro a ha
    simp [hnil a ha]

theorem runCore_sched (now : Int) (jobs : List Job) (db0 : Db) :
    (runCore now jobs db0).db.intervals = (loopRun now jobs db0).db.intervals ∧
    (runCore now jobs db0).db.crontabs = (loopRun now jobs db0).db.crontabs := by
  rw [runCore_unfold]
  dsimp only
  split
  · exact ⟨rfl, rfl⟩
  · exact ⟨rfl, rfl⟩

theorem runCore_counts (now : Int) (jobs : List Job) (db0 : Db) :
    (runCore now jobs db0).created = (loopRun now jobs db0).created ∧
    (runCore now jobs db0).updated = (loopRun now jobs db0).updated ∧
    (runCore now jobs db0).deleted =
      ((loopRun now jobs db0).db.tasks.filter (isStale (jobs.map taskNameOf))).length ∧
    (runCore now jobs db0).changed =
      (loopRun now jobs db0).created + (loopRun now jobs db0).updated +
        ((loopRun now jobs db0).db.tasks.filter (isStale (jobs.map taskNameOf))).length := by
  rw [runCore_unfold]
  dsimp only
  split
  · exact ⟨rfl, rfl, rfl, rfl⟩
  · rename_i hlen
    refine ⟨rfl, rfl, rfl, ?_⟩
    omega

theorem runCore_log_mem (now : Int) (jobs : List Job) (db0 : Db) {ev : LogEvent}
    (h : ev ∈ (loopRun now jobs db0).log) : ev ∈ (runCore now jobs db0).log := by
  rw [runCore_unfold]
  dsimp only
  split <;> split <;> simp [h]

theorem runCore_log_removed (now : Int) (jobs : List Job) (db0 : Db)
    (h : 0 < ((loopRun now jobs db0).db.tasks.filter
        (isStale (jobs.map taskNameOf))).length) :
    LogEvent.infoRemovedStale
      (((loopRun now jobs db0).db.tasks.filter (isStale (jobs.map taskNameOf))).map
        (fun r => r.name)) ∈ (runCore now jobs db0).log := by
  rw [runCore_unfold]
  dsimp only
  split
  · split <;> simp
  · rename_i hh
    exfalso
    omega

theorem sync_gate_open (jobs : List Job) (now : Int) (db0 : Db) :
    sync_periodic_tasks jobs now false true db0 = runCore now jobs db0 := rfl

/-! ### Assorted helpers for the claim theorems -/

theorem contains_of_mem {l : List String} {a : String} (h : a ∈ l) :
    l.contains a = true := by
  induction l with
  | nil => cases h
  | cons x xs ih =>
      rcases List.mem_cons.mp h with rfl | h2
      · rw [List.contains_cons]
        simp
      · rw [List.contains_cons, ih h2]
        simp

theorem purge_keeps_named (active : List String) (l : List TaskRow) {n : String}
    (hn : n ∈ active) :
    (l.filter (fun r => !(isStale active r))).filter (fun r => r.name == n) =
      l.filter (fun r => r.name == n) := by
  rw [List.filter_filter]
  apply List.filter_congr
  intro a _
  cases hna : (a.name == n) with
  | false => simp
  | true =>
      have han : a.name = n := by simpa using hna
      have hc : active.contains a.name = true := by
        rw [han]
        exact contains_of_mem hn
      have hstale : isStale active a = false := by
        unfold isStale
        rw [hc]
        simp
      simp [hna, hstale]

theorem diffOrCreate_logD (now : Int) (j : Job) (i c : Option Nat) (db1 : Db) :
    (diffOrCreate now j i c db1).logD = [] := by
  unfold diffOrCreate
  dsimp only
  split
  · rfl
  · split <;> rfl

theorem runCore_notify (now : Int) (jobs : List Job) (db0 : Db) :
    (runCore now jobs db0).notifyCalls =
      if 0 < (runCore now jobs db0).changed then 1 else 0 := by
  rw [runCore_unfold]

theorem jobStep_skip_shape (now : Int) (db : Db) (j : Job) (hv : jobValid j = false) :
    (jobStep now db j).db.tasks = db.tasks ∧
    (jobStep now db j).createdD = 0 ∧ (jobStep now db j).updatedD = 0 := by
  cases hji : j.interval with
  | some s =>
      have ht : (intervalTruthy j.interval || crontabTruthy j.crontab) = false := by
        unfold jobValid at hv
        rw [hji] at hv
        dsimp only at hv
        rw [hji]
        simpa [intervalTruthy] using hv
      have hb : buildSchedule db j =
          .ok (some (getOrCreateInterval db s).1) none (getOrCreateInterval db s).2 := by
        unfold buildSchedule
        rw [hji]
      rw [jobStep_eq_skip now hb ht]
      obtain ⟨h1, _, _, _⟩ := getOrCreateInterval_spec db s
      exact ⟨h1, rfl, rfl⟩
  | none =>
      cases hjc : j.crontab with
      | none =>
          have hb : buildSchedule db j = .ok none none db := by
            unfold buildSchedule
            rw [hji]
            dsimp only
            rw [hjc]
          have ht : (intervalTruthy j.interval || crontabTruthy j.crontab) = false := by
            rw [hji, hjc]
            rfl
          rw [jobStep_eq_skip now hb ht]
          exact ⟨rfl, rfl, rfl⟩
      | some cr =>
          cases cr with
          | str s =>
              have hb : buildSchedule db j = .invalidCron s := by
                unfold buildSchedule
                rw [hji]
                dsimp only
                rw [hjc]
                dsimp only
                split
                · rename_i m hh dom moy dow hsp
                  exfalso
                  unfold jobValid at hv
                  rw [hji] at hv
                  dsimp only at hv
                  rw [hjc] at hv
                  dsimp only at hv
                  rw [hsp] at hv
                  dsimp only at hv
                  cases hv
                · rfl
              rw [jobStep_eq_invalid now hb]
              exact ⟨rfl, rfl, rfl⟩
          | fields m hh dom moy dow =>
              exfalso
              unfold jobValid at hv
              rw [hji] at hv
              dsimp only at hv
              rw [hjc] at hv
              dsimp only at hv
              cases hv

theorem buildSchedule_invalid_of_bad_split {db : Db} {j : Job} {s : String}
    (hji : j.interval = none) (hjc : j.crontab = some (.str s))
    (hlen : (pySplit s).length ≠ 5) :
    buildSchedule db j = .invalidCron s := by
  unfold buildSchedule
  rw [hji]
  dsimp only
  rw [hjc]
  dsimp only
  split
  · rename_i m hh dom moy dow hsp
    exfalso
    apply hlen
    rw [hsp]
    rfl
  · rfl

theorem resolvedIds_interval {db : Db} {j : Job} {s : Int} {p : Option Nat × Option Nat}
    (hji : j.interval = some s) (h : resolvedIds db j = some p) :
    ∃ id, lookupIntervalId db s = some id ∧ p = (some id, none) := by
  unfold resolvedIds at h
  rw [hji] at h
  dsimp only at h
  cases hl : lookupIntervalId db s with
  | none =>
      rw [hl] at h
      cases h
  | some id =>
      rw [hl] at h
      dsimp only at h
      cases h
      exact ⟨id, rfl, rfl⟩

theorem resolvedIds_cron {db : Db} {j : Job} {m hh dom moy dow : String}
    {p : Option Nat × Option Nat}
    (hji : j.interval = none) (hk : cronKeyOf j = some (m, hh, dom, moy, dow))
    (h : resolvedIds db j = some p) :
    ∃ id, lookupCronId db m hh dom moy dow = some id ∧ p = (none, some id) := by
  unfold cronKeyOf at hk
  unfold resolvedIds at h
  rw [hji] at h
  dsimp only at h
  cases hjc : j.crontab with
  | none =>
      rw [hjc] at hk
      cases hk
  | some cr =>
      rw [hjc] at hk h
      cases cr with
      | str s =>
          dsimp only at hk h
          split at hk
          · rename_i a b c2 d2 e2 hsp
            simp only [Option.some.injEq, Prod.mk.injEq] at hk
            obtain ⟨rfl, rfl, rfl, rfl, rfl⟩ := hk
            rw [hsp] at h
            dsimp only at h
            cases hl : lookupCronId db a b c2 d2 e2 with
            | none =>
                rw [hl] at h
                cases h
            | some id =>
                rw [hl] at h
                dsimp only at h
                cases h
                exact ⟨id, rfl, rfl⟩
          · cases hk
      | fields a b c2 d2 e2 =>
          dsimp only at hk h
          simp only [Option.some.injEq, Prod.mk.injEq] at hk
          obtain ⟨rfl, rfl, rfl, rfl, rfl⟩ := hk
          cases hl : lookupCronId db a b c2 d2 e2 with
          | none =>
              rw [hl] at h
              cases h
          | some id =>
              rw [hl] at h
              dsimp only at h
              cases h
              exact ⟨id, rfl, rfl⟩

theorem loopRun_names_sub (now : Int) (jobs : List Job) :
    ∀ (db : Db) (n : String),
      n ∈ (loopRun now jobs db).db.tasks.map (fun r => r.name) →
      n ∈ db.tasks.map (fun r => r.name) ∨ n ∈ jobs.map taskNameOf := by
  induction jobs with
  | nil => exact fun db n h => Or.inl h
  | cons k rest ih =>
      intro db n h
      rw [loopRun_cons] at h
      rcases ih _ n h with h1 | h2
      · rcases jobStep_names now db k with he | ⟨he, _⟩
        · rw [he] at h1
          exact Or.inl h1
        · rw [he] at h1
          rcases List.mem_append.mp h1 with h1a | h1b
          · exact Or.inl h1a
          · rw [List.mem_singleton] at h1b
            subst h1b
            exact Or.inr (List.mem_cons_self _ _)
      · exact Or.inr (List.mem_cons_of_mem _ h2)

/-! ### Whole-run consequences -/

theorem sync_settles (jobs : List Job) (now : Int) (db0 : Db)
    (hjn : (jobs.map taskNameOf).Nodup)
    (hdb : (db0.tasks.map (fun r => r.name)).Nodup) :
    ∀ j ∈ jobs, jobValid j = true →
      jobSettled (sync_periodic_tasks jobs now false true db0).db j := by
  intro j hj hv
  rw [sync_gate_open]
  obtain ⟨i, c, hres, hnem, hall⟩ := loopRun_settles now jobs db0 hdb hjn j hj hv
  have hsch := runCore_sched now jobs db0
  have hrows : rowsNamed (runCore now jobs db0).db (taskNameOf j) =
      rowsNamed (loopRun now jobs db0).db (taskNameOf j) := by
    unfold rowsNamed
    rw [runCore_tasks]
    exact purge_keeps_named _ _ (List.mem_map_of_mem _ hj)
  exact ⟨i, c, by rw [resolvedIds_congr j hsch.1 hsch.2]; exact hres,
    by rw [hrows]; exact hnem, by rw [hrows]; exact hall⟩

theorem sync_no_stale (jobs : List Job) (now : Int) (db0 : Db) :
    ∀ r ∈ (sync_periodic_tasks jobs now false true db0).db.tasks,
      isStale (jobs.map taskNameOf) r = false := by
  intro r hr
  rw [sync_gate_open, runCore_tasks] at hr
  have h2 := List.of_mem_filter hr
  simpa using h2

theorem sync_db_nodup (jobs : List Job) (now : Int) (db0 : Db)
    (hdb : (db0.tasks.map (fun r => r.name)).Nodup) :
    ((sync_periodic_tasks jobs now false true db0).db.tasks.map
      (fun r => r.name)).Nodup := by
  rw [sync_gate_open, runCore_tasks]
  have h1 := loopRun_nodup now jobs db0 hdb
  exact List.Nodup.sublist ((List.filter_sublist _).map _) h1

/-! ### C1 (amended): idempotence for valid schedules and distinct identities -/

/-- C1 (amended): for every declaration set in which every job has a valid
schedule **and the job identities are pairwise distinct** (and given the
store's unique-name constraint on the initial table), running the
reconciliation a second time immediately after a first run (gate re-armed,
declarations unchanged, at any later wall-clock time) performs zero
additional creates, updates, or deletes, sends no "schedule changed"
notification, and leaves the store — in particular the number of persisted
job rows — unchanged. -/
theorem sync_idempotent_of_valid_distinct (jobs : List Job) (now1 now2 : Int) (db0 : Db)
    (hv : ∀ j ∈ jobs, jobValid j = true)
    (hjn : (jobs.map taskNameOf).Nodup)
    (hdb : (db0.tasks.map (fun r => r.name)).Nodup) :
    (sync_periodic_tasks jobs now2 false true
       (sync_periodic_tasks jobs now1 false true db0).db).created = 0 ∧
    (sync_periodic_tasks jobs now2 false true
       (sync_periodic_tasks jobs now1 false true db0).db).updated = 0 ∧
    (sync_periodic_tasks jobs now2 false true
       (sync_periodic_tasks jobs now1 false true db0).db).deleted = 0 ∧
    (sync_periodic_tasks jobs now2 false true
       (sync_periodic_tasks jobs now1 false true db0).db).notifyCalls = 0 ∧
    (sync_periodic_tasks jobs now2 false true
       (sync_periodic_tasks jobs now1 false true db0).db).db =
      (sync_periodic_tasks jobs now1 false true db0).db ∧
    (sync_periodic_tasks jobs now2 false true
       (sync_periodic_tasks jobs now1 false true db0).db).db.tasks.length =
      (sync_periodic_tasks jobs now1 false true db0).db.tasks.length := by
  have h1 : ∀ j ∈ jobs, jobSettled (sync_periodic_tasks jobs now1 false true db0).db j :=
    fun j hj => sync_settles jobs now1 db0 hjn hdb j hj (hv j hj)
  have hloop2 :=
    loopRun_noop now2 jobs (sync_periodic_tasks jobs now1 false true db0).db hv h1
  have hstale2 : (sync_periodic_tasks jobs now1 false true db0).db.tasks.filter
      (isStale (jobs.map taskNameOf)) = [] := by
    rw [List.filter_eq_nil_iff]
    intro r hr
    rw [sync_no_stale jobs now1 db0 r hr]
    simp
  have hzero1 : (loopRun now2 jobs
      (sync_periodic_tasks jobs now1 false true db0).db).created = 0 := by
    rw [hloop2]
  have hzero2 : (loopRun now2 jobs
      (sync_periodic_tasks jobs now1 false true db0).db).updated = 0 := by
    rw [hloop2]
  have hstale0 : ((loopRun now2 jobs
      (sync_periodic_tasks jobs now1 false true db0).db).db.tasks.filter
        (isStale (jobs.map taskNameOf))).length = 0 := by
    rw [hloop2]
    dsimp only
    rw [hstale2]
    rfl
  obtain ⟨hc1, hc2, hc3, hc4⟩ :=
    runCore_counts now2 jobs (sync_periodic_tasks jobs now1 false true db0).db
  have hchanged : (sync_periodic_tasks jobs now2 false true
      (sync_periodic_tasks jobs now1 false true db0).db).changed = 0 := by
    rw [sync_gate_open, hc4, hzero1, hzero2, hstale0]
  have hdbeq : (sync_periodic_tasks jobs now2 false true
      (sync_periodic_tasks jobs now1 false true db0).db).db =
      (sync_periodic_tasks jobs now1 false true db0).db := by
    rw [sync_gate_open, runCore_unfold]
    dsimp only
    rw [hloop2]
    dsimp only
    rw [hstale2]
    simp
  refine ⟨?_, ?_, ?_, ?_, hdbeq, ?_⟩
  · rw [sync_gate_open, hc1, hzero1]
  · rw [sync_gate_open, hc2, hzero2]
  · rw [sync_gate_open, hc3, hstale0]
  · rw [sync_gate_open, runCore_notify, ← sync_gate_open jobs now2, hchanged]
    simp
  · rw [hdbeq]

/-- C1 witness: the amended theorem applied to two concrete valid
declarations with distinct identities, starting from the empty store. -/
theorem sync_idempotent_witness :
    ((∀ j ∈ [jobThirty, jobCronA], jobValid j = true) ∧
     (([jobThirty, jobCronA].map taskNameOf).Nodup) ∧
     ((emptyDb.tasks.map (fun r => r.name)).Nodup)) ∧
    ((sync_periodic_tasks [jobThirty, jobCronA] 1 false true
       (sync_periodic_tasks [jobThirty, jobCronA] 0 false true emptyDb).db).created = 0 ∧
     (sync_periodic_tasks [jobThirty, jobCronA] 1 false true
       (sync_periodic_tasks [jobThirty, jobCronA] 0 false true emptyDb).db).updated = 0 ∧
     (sync_periodic_tasks [jobThirty, jobCronA] 1 false true
       (sync_periodic_tasks [jobThirty, jobCronA] 0 false true emptyDb).db).deleted = 0 ∧
     (sync_periodic_tasks [jobThirty, jobCronA] 1 false true
       (sync_periodic_tasks [jobThirty, jobCronA] 0 false true emptyDb).db).notifyCalls = 0 ∧
     (sync_periodic_tasks [jobThirty, jobCronA] 1 false true
       (sync_periodic_tasks [jobThirty, jobCronA] 0 false true emptyDb).db).db =
       (sync_periodic_tasks [jobThirty, jobCronA] 0 false true emptyDb).db ∧
     (sync_periodic_tasks [jobThirty, jobCronA] 1 false true
       (sync_periodic_tasks [jobThirty, jobCronA] 0 false true emptyDb).db).db.tasks.length =
       (sync_periodic_tasks [jobThirty, jobCronA] 0 false true emptyDb).db.tasks.length) :=
  ⟨⟨by decide, by decide, by decide⟩,
   sync_idempotent_of_valid_distinct [jobThirty, jobCronA] 0 1 emptyDb
     (by decide) (by decide) (by decide)⟩

/-! ### C4: shared schedule deduplication -/

theorem jobValid_of_cronKey {j : Job} {k : String × String × String × String × String}
    (hji : j.interval = none) (hk : cronKeyOf j = some k) : jobValid j = true := by
  unfold cronKeyOf at hk
  unfold jobValid
  rw [hji]
  dsimp only
  cases hjc : j.crontab with
  | none =>
      rw [hjc] at hk
      cases hk
  | some cr =>
      rw [hjc] at hk
      cases cr with
      | str s =>
          dsimp only at hk ⊢
          split at hk
          · rfl
          · cases hk
      | fields a b c2 d2 e2 => rfl

/-- C4: within one reconciliation batch (distinct job identities, store
unique-name constraint), any two jobs declaring the same
interval-in-seconds end up with job rows referencing the identical shared
interval schedule row (one id, not two equal-but-distinct rows); likewise
any two jobs whose crontab declarations resolve to identical five-field
keys reference the identical shared crontab row. -/
theorem shared_schedule_dedup (jobs : List Job) (now : Int) (db0 : Db)
    (hjn : (jobs.map taskNameOf).Nodup)
    (hdb : (db0.tasks.map (fun r => r.name)).Nodup) :
    (∀ j1 ∈ jobs, ∀ j2 ∈ jobs, ∀ s : Int,
      j1.interval = some s → j2.interval = some s →
      jobValid j1 = true → jobValid j2 = true →
      ∃ iid,
        (∃ r1 ∈ (sync_periodic_tasks jobs now false true db0).db.tasks,
          r1.name = taskNameOf j1 ∧ r1.interval = some iid) ∧
        (∃ r2 ∈ (sync_periodic_tasks jobs now false true db0).db.tasks,
          r2.name = taskNameOf j2 ∧ r2.interval = some iid) ∧
        (∀ r ∈ (sync_periodic_tasks jobs now false true db0).db.tasks,
          r.name = taskNameOf j1 ∨ r.name = taskNameOf j2 →
          r.interval = some iid)) ∧
    (∀ j1 ∈ jobs, ∀ j2 ∈ jobs, ∀ m hh dom moy dow,
      j1.interval = none → j2.interval = none →
      cronKeyOf j1 = some (m, hh, dom, moy, dow) →
      cronKeyOf j2 = some (m, hh, dom, moy, dow) →
      ∃ cid,
        (∃ r1 ∈ (sync_periodic_tasks jobs now false true db0).db.tasks,
          r1.name = taskNameOf j1 ∧ r1.crontab = some cid) ∧
        (∃ r2 ∈ (sync_periodic_tasks jobs now false true db0).db.tasks,
          r2.name = taskNameOf j2 ∧ r2.crontab = some cid) ∧
        (∀ r ∈ (sync_periodic_tasks jobs now false true db0).db.tasks,
          r.name = taskNameOf j1 ∨ r.name = taskNameOf j2 →
          r.crontab = some cid)) := by
  constructor
  · intro j1 hj1 j2 hj2 s h1i h2i hv1 hv2
    obtain ⟨i1, c1, hres1, hnem1, hall1⟩ := sync_settles jobs now db0 hjn hdb j1 hj1 hv1
    obtain ⟨i2, c2, hres2, hnem2, hall2⟩ := sync_settles jobs now db0 hjn hdb j2 hj2 hv2
    obtain ⟨id1, hl1, hp1⟩ := resolvedIds_interval h1i hres1
    obtain ⟨id2, hl2, hp2⟩ := resolvedIds_interval h2i hres2
    have hid : id1 = id2 := by
      rw [hl1] at hl2
      exact (Option.some.injEq _ _).mp hl2
    rw [Prod.mk.injEq] at hp1 hp2
    obtain ⟨r1, hr1⟩ := List.exists_mem_of_ne_nil _ hnem1
    obtain ⟨r2, hr2⟩ := List.exists_mem_of_ne_nil _ hnem2
    have hr1m := (List.mem_filter.mp hr1).1
    have hr1n : r1.name = taskNameOf j1 := by
      simpa using (List.mem_filter.mp hr1).2
    have hr2m := (List.mem_filter.mp hr2).1
    have hr2n : r2.name = taskNameOf j2 := by
      simpa using (List.mem_filter.mp hr2).2
    refine ⟨id1, ⟨r1, hr1m, hr1n, ?_⟩, ⟨r2, hr2m, hr2n, ?_⟩, ?_⟩
    · have := (hall1 r1 hr1).2.2.2.2.2.2.2.2.1
      rw [this, hp1.1]
    · have := (hall2 r2 hr2).2.2.2.2.2.2.2.2.1
      rw [this, hp2.1, hid]
    · intro r hr hor
      rcases hor with hn1 | hn2
      · have hrf : r ∈ rowsNamed (sync_periodic_tasks jobs now false true db0).db
            (taskNameOf j1) := by
          unfold rowsNamed
          rw [List.mem_filter]
          exact ⟨hr, by simp [hn1]⟩
        have := (hall1 r hrf).2.2.2.2.2.2.2.2.1
        rw [this, hp1.1]
      · have hrf : r ∈ rowsNamed (sync_periodic_tasks jobs now false true db0).db
            (taskNameOf j2) := by
          unfold rowsNamed
          rw [List.mem_filter]
          exact ⟨hr, by simp [hn2]⟩
        have := (hall2 r hrf).2.2.2.2.2.2.2.2.1
        rw [this, hp2.1, hid]
  · intro j1 hj1 j2 hj2 m hh dom moy dow h1i h2i hk1 hk2
    have hv1 := jobValid_of_cronKey h1i hk1
    have hv2 := jobValid_of_cronKey h2i hk2
    obtain ⟨i1, c1, hres1, hnem1, hall1⟩ := sync_settles jobs now db0 hjn hdb j1 hj1 hv1
    obtain ⟨i2, c2, hres2, hnem2, hall2⟩ := sync_settles jobs now db0 hjn hdb j2 hj2 hv2
    obtain ⟨id1, hl1, hp1⟩ := resolvedIds_cron h1i hk1 hres1
    obtain ⟨id2, hl2, hp2⟩ := resolvedIds_cron h2i hk2 hres2
    have hid : id1 = id2 := by
      rw [hl1] at hl2
      exact (Option.some.injEq _ _).mp hl2
    rw [Prod.mk.injEq] at hp1 hp2
    obtain ⟨r1, hr1⟩ := List.exists_mem_of_ne_nil _ hnem1
    obtain ⟨r2, hr2⟩ := List.exists_mem_of_ne_nil _ hnem2
    have hr1m := (List.mem_filter.mp hr1).1
    have hr1n : r1.name = taskNameOf j1 := by
      simpa using (List.mem_filter.mp hr1).2
    have hr2m := (List.mem_filter.mp hr2).1
    have hr2n : r2.name = taskNameOf j2 := by
      simpa using (List.mem_filter.mp hr2).2
    refine ⟨id1, ⟨r1, hr1m, hr1n, ?_⟩, ⟨r2, hr2m, hr2n, ?_⟩, ?_⟩
    · have := (hall1 r1 hr1).2.2.2.2.2.2.2.2.2.1
      rw [this, hp1.2]
    · have := (hall2 r2 hr2).2.2.2.2.2.2.2.2.2.1
      rw [this, hp2.2, hid]
    · intro r hr hor
      rcases hor with hn1 | hn2
      · have hrf : r ∈ rowsNamed (sync_periodic_tasks jobs now false true db0).db
            (taskNameOf j1) := by
          unfold rowsNamed
          rw [List.mem_filter]
          exact ⟨hr, by simp [hn1]⟩
        have := (hall1 r hrf).2.2.2.2.2.2.2.2.2.1
        rw [this, hp1.2]
      · have hrf : r ∈ rowsNamed (sync_periodic_tasks jobs now false true db0).db
            (taskNameOf j2) := by
          unfold rowsNamed
          rw [List.mem_filter]
          exact ⟨hr, by simp [hn2]⟩
        have := (hall2 r hrf).2.2.2.2.2.2.2.2.2.1
        rw [this, hp2.2, hid]

/-- C4 witness: two concrete 30-second interval jobs with distinct names
share one interval schedule row, and two concrete crontab jobs with the
same five fields share one crontab row. -/
theorem shared_schedule_dedup_witness :
    ((([jobThirty, jobThirtyB, jobCronA, jobCronB].map taskNameOf).Nodup) ∧
     ((emptyDb.tasks.map (fun r => r.name)).Nodup) ∧
     jobThirty.interval = some 30 ∧ jobThirtyB.interval = some 30 ∧
     jobValid jobThirty = true ∧ jobValid jobThirtyB = true ∧
     jobCronA.interval = none ∧ jobCronB.interval = none ∧
     cronKeyOf jobCronA = some ("0", "*/2", "*", "*", "*") ∧
     cronKeyOf jobCronB = some ("0", "*/2", "*", "*", "*")) ∧
    (∃ iid,
      (∃ r1 ∈ (sync_periodic_tasks [jobThirty, jobThirtyB, jobCronA, jobCronB] 0
          false true emptyDb).db.tasks,
        r1.name = taskNameOf jobThirty ∧ r1.interval = some iid) ∧
      (∃ r2 ∈ (sync_periodic_tasks [jobThirty, jobThirtyB, jobCronA, jobCronB] 0
          false true emptyDb).db.tasks,
        r2.name = taskNameOf jobThirtyB ∧ r2.interval = some iid) ∧
      (∀ r ∈ (sync_periodic_tasks [jobThirty, jobThirtyB, jobCronA, jobCronB] 0
          false true emptyDb).db.tasks,
        r.name = taskNameOf jobThirty ∨ r.name = taskNameOf jobThirtyB →
        r.interval = some iid)) ∧
    (∃ cid,
      (∃ r1 ∈ (sync_periodic_tasks [jobThirty, jobThirtyB, jobCronA, jobCronB] 0
          false true emptyDb).db.tasks,
        r1.name = taskNameOf jobCronA ∧ r1.crontab = some cid) ∧
      (∃ r2 ∈ (sync_periodic_tasks [jobThirty, jobThirtyB, jobCronA, jobCronB] 0
          false true emptyDb).db.tasks,
        r2.name = taskNameOf jobCronB ∧ r2.crontab = some cid) ∧
      (∀ r ∈ (sync_periodic_tasks [jobThirty, jobThirtyB, jobCronA, jobCronB] 0
          false true emptyDb).db.tasks,
        r.name = taskNameOf jobCronA ∨ r.name = taskNameOf jobCronB →
        r.crontab = some cid)) :=
  ⟨⟨by decide, by decide, rfl, rfl, by decide, by decide, rfl, rfl, by decide, by decide⟩,
   (shared_schedule_dedup [jobThirty, jobThirtyB, jobCronA, jobCronB] 0 emptyDb
      (by decide) (by decide)).1
     jobThirty (by decide) jobThirtyB (by decide) 30 rfl rfl (by decide) (by decide),
   (shared_schedule_dedup [jobThirty, jobThirtyB, jobCronA, jobCronB] 0 emptyDb
      (by decide) (by decide)).2
     jobCronA (by decide) jobCronB (by decide) "0" "*/2" "*" "*" "*" rfl rfl
     (by decide) (by decide)⟩

/-! ### C5: the Purge-Stale step -/

/-- C5: after the per-job loop, the purge deletes exactly the persisted rows
carrying the managed marker whose identity is not among the processed
identities (`active_task_names`): the final table is the loop-end table
filtered by "not stale", the deleted count is the number of stale rows,
each deleted row adds one to the change count, rows without the marker are
never deleted, and the deleted identities are reported in the diagnostic
log. -/
theorem purge_deletes_exactly_stale_managed (jobs : List Job) (now : Int) (db0 : Db) :
    (sync_periodic_tasks jobs now false true db0).db.tasks =
      (syncLoop now jobs ⟨db0, [], 0, 0, 0, [.infoSyncStart]⟩).db.tasks.filter
        (fun r => !(isStale
          (syncLoop now jobs ⟨db0, [], 0, 0, 0, [.infoSyncStart]⟩).activeNames r)) ∧
    (sync_periodic_tasks jobs now false true db0).deleted =
      ((syncLoop now jobs ⟨db0, [], 0, 0, 0, [.infoSyncStart]⟩).db.tasks.filter
        (isStale
          (syncLoop now jobs ⟨db0, [], 0, 0, 0, [.infoSyncStart]⟩).activeNames)).length ∧
    (sync_periodic_tasks jobs now false true db0).changed =
      (syncLoop now jobs ⟨db0, [], 0, 0, 0, [.infoSyncStart]⟩).changed +
        (sync_periodic_tasks jobs now false true db0).deleted ∧
    (∀ r ∈ (syncLoop now jobs ⟨db0, [], 0, 0, 0, [.infoSyncStart]⟩).db.tasks,
      r.description ≠ MANAGED_DESCRIPTION →
      r ∈ (sync_periodic_tasks jobs now false true db0).db.tasks) ∧
    (0 < (sync_periodic_tasks jobs now false true db0).deleted →
      LogEvent.infoRemovedStale
        (((syncLoop now jobs ⟨db0, [], 0, 0, 0, [.infoSyncStart]⟩).db.tasks.filter
          (isStale
            (syncLoop now jobs ⟨db0, [], 0, 0, 0, [.infoSyncStart]⟩).activeNames)).map
          (fun r => r.name)) ∈ (sync_periodic_tasks jobs now false true db0).log) := by
  rw [syncLoop_eq_loopRun]
  dsimp only
  simp only [List.nil_append, Nat.zero_add]
  obtain ⟨hc1, hc2, hc3, hc4⟩ := runCore_counts now jobs db0
  refine ⟨?_, ?_, ?_, ?_, ?_⟩
  · rw [sync_gate_open, runCore_tasks]
  · rw [sync_gate_open, hc3]
  · rw [sync_gate_open, hc4, hc3]
  · intro r hr hdesc
    rw [sync_gate_open, runCore_tasks]
    rw [List.mem_filter]
    refine ⟨hr, ?_⟩
    have hbeq : (r.description == MANAGED_DESCRIPTION) = false := by
      simp [hdesc]
    have hstale : isStale (jobs.map taskNameOf) r = false := by
      unfold isStale
      rw [hbeq]
      rfl
    rw [hstale]
    rfl
  · intro hdel
    rw [sync_gate_open] at hdel ⊢
    rw [hc3] at hdel
    exact runCore_log_removed now jobs db0 hdel

/-- C5 witness: a stale managed row (`rowAppF`) next to one valid
declaration is deleted and reported. -/
theorem purge_stale_witness :
    0 < (sync_periodic_tasks [jobThirty] 0 false true
      ⟨[rowAppF], [], [], 0, 0⟩).deleted ∧
    LogEvent.infoRemovedStale
      (((syncLoop 0 [jobThirty]
          ⟨⟨[rowAppF], [], [], 0, 0⟩, [], 0, 0, 0, [.infoSyncStart]⟩).db.tasks.filter
        (isStale
          (syncLoop 0 [jobThirty]
            ⟨⟨[rowAppF], [], [], 0, 0⟩, [], 0, 0, 0, [.infoSyncStart]⟩).activeNames)).map
        (fun r => r.name)) ∈
      (sync_periodic_tasks [jobThirty] 0 false true ⟨[rowAppF], [], [], 0, 0⟩).log :=
  ⟨by decide,
   (purge_deletes_exactly_stale_managed [jobThirty] 0 ⟨[rowAppF], [], [], 0, 0⟩).2.2.2.2
     (by decide)⟩

/-! ### C9: start_time is write-once -/

theorem jobStep_startTime_invariant (now : Int) (db : Db) (k : Job) (n : String) (t : Int)
    (hP : ∀ r2 ∈ db.tasks, r2.name = n → r2.startTime = some t)
    (hEx : n ∈ db.tasks.map (fun r2 => r2.name)) :
    ∀ r2 ∈ (jobStep now db k).db.tasks, r2.name = n → r2.startTime = some t := by
  by_cases hk : taskNameOf k = n
  · cases hb : buildSchedule db k with
    | invalidCron s =>
        rw [jobStep_eq_invalid now hb]
        exact hP
    | ok i c db1 =>
        obtain ⟨htsk, _, _⟩ := buildSchedule_ok_dbs hb
        cases htr : (intervalTruthy k.interval || crontabTruthy k.crontab) with
        | false =>
            rw [jobStep_eq_skip now hb htr]
            dsimp only
            rw [htsk]
            exact hP
        | true =>
            rw [jobStep_eq_go now hb htr]
            cases hf : db1.tasks.find? (fun r2 => r2.name == taskNameOf k) with
            | none =>
                exfalso
                rw [List.find?_eq_none] at hf
                obtain ⟨r0, hr0, hr0n⟩ := List.mem_map.mp hEx
                refine hf r0 (htsk ▸ hr0) ?_
                simp [hr0n, hk]
            | some r0 =>
                cases hd : fieldsDiffer r0 (mkDefaults now k i c) with
                | true =>
                    rw [diffOrCreate_eq_update now i c hf hd]
                    dsimp only
                    intro r2 hr2 hr2n
                    obtain ⟨r1, hr1, hr1e⟩ := List.mem_map.mp hr2
                    have hr1m : r1 ∈ db.tasks := htsk ▸ hr1
                    by_cases h1 : (r1.name == taskNameOf k) = true
                    · rw [if_pos h1] at hr1e
                      subst hr1e
                      have hr1n : r1.name = n := by
                        have := updatedRow_name r1 (mkDefaults now k i c)
                        rw [← this]
                        exact hr2n
                      have hst := hP r1 hr1m hr1n
                      unfold updatedRow
                      dsimp only
                      rw [hst]
                      rfl
                    · rw [if_neg h1] at hr1e
                      subst hr1e
                      exact hP r1 hr1m hr2n
                | false =>
                    rw [diffOrCreate_eq_nochange now i c hf hd]
                    dsimp only
                    rw [htsk]
                    exact hP
  · intro r2 hr2 hr2n
    have hrow : r2 ∈ rowsNamed (jobStep now db k).db n := by
      unfold rowsNamed
      rw [List.mem_filter]
      exact ⟨hr2, by simp [hr2n]⟩
    rw [jobStep_rowsNamed_other now db k hk] at hrow
    unfold rowsNamed at hrow
    rw [List.mem_filter] at hrow
    exact hP r2 hrow.1 hr2n

theorem loopRun_startTime_invariant (now : Int) (jobs : List Job) :
    ∀ (db : Db) (n : String) (t : Int),
      (∀ r2 ∈ db.tasks, r2.name = n → r2.startTime = some t) →
      n ∈ db.tasks.map (fun r2 => r2.name) →
      ∀ r2 ∈ (loopRun now jobs db).db.tasks, r2.name = n → r2.startTime = some t := by
  induction jobs with
  | nil => exact fun db n t hP _ => hP
  | cons k rest ih =>
      intro db n t hP hEx
      rw [loopRun_cons]
      exact ih _ n t (jobStep_startTime_invariant now db k n t hP hEx)
        (jobStep_name_mem now db k hEx)

/-- C9: the field-diff update never overwrites a non-NULL `start_time`:
locally, the post-update row keeps its `start_time` whenever it was
non-NULL while every other field takes the target value; globally, for a
persisted row with non-NULL `start_time`, every row with its identity still
carries that `start_time` after a whole reconciliation run. -/
theorem start_time_write_once (jobs : List Job) (now : Int) (db0 : Db)
    (r : TaskRow) (t : Int)
    (hr : r ∈ db0.tasks) (hrt : r.startTime = some t)
    (hdb : (db0.tasks.map (fun r2 => r2.name)).Nodup) :
    (∀ r2 ∈ (sync_periodic_tasks jobs now false true db0).db.tasks,
      r2.name = r.name → r2.startTime = some t) ∧
    (∀ (r2 : TaskRow) (d : Defaults), r2.startTime.isSome = true →
      (updatedRow r2 d).startTime = r2.startTime ∧
      (updatedRow r2 d).task = d.task ∧ (updatedRow r2 d).enabled = d.enabled ∧
      (updatedRow r2 d).description = d.description ∧ (updatedRow r2 d).args = d.args ∧
      (updatedRow r2 d).kwargs = d.kwargs ∧ (updatedRow r2 d).queue = d.queue ∧
      (updatedRow r2 d).priority = d.priority ∧
      (updatedRow r2 d).interval = d.interval ∧
      (updatedRow r2 d).crontab = d.crontab ∧ (updatedRow r2 d).solar = d.solar ∧
      (updatedRow r2 d).clocked = d.clocked) := by
  constructor
  · have hP0 : ∀ r2 ∈ db0.tasks, r2.name = r.name → r2.startTime = some t := by
      intro r2 h2 h2n
      have heq : r2 = r := List.inj_on_of_nodup_map hdb h2 hr h2n
      rw [heq]
      exact hrt
    have hEx0 : r.name ∈ db0.tasks.map (fun r2 => r2.name) :=
      List.mem_map_of_mem _ hr
    intro r2 h2 h2n
    rw [sync_gate_open, runCore_tasks] at h2
    exact loopRun_startTime_invariant now jobs db0 r.name t hP0 hEx0 r2
      (List.mem_of_mem_filter h2) h2n
  · intro r2 d hs
    refine ⟨?_, rfl, rfl, rfl, rfl, rfl, rfl, rfl, rfl, rfl, rfl, rfl⟩
    unfold updatedRow
    dsimp only
    rw [hs]
    rfl

/-- C9 witness: the managed row `rowAppF` has `start_time = some 0`; after a
run that updates it (declaration `app.f` regains an interval schedule), its
start time is untouched. -/
theorem start_time_write_once_witness :
    (rowAppF ∈ (⟨[rowAppF], [], [], 0, 0⟩ : Db).tasks ∧
     rowAppF.startTime = some 0 ∧
     (((⟨[rowAppF], [], [], 0, 0⟩ : Db)).tasks.map (fun r2 => r2.name)).Nodup) ∧
    ((∀ r2 ∈ (sync_periodic_tasks [jobThirty] 5 false true
        ⟨[rowAppF], [], [], 0, 0⟩).db.tasks,
      r2.name = rowAppF.name → r2.startTime = some 0) ∧
     (∀ (r2 : TaskRow) (d : Defaults), r2.startTime.isSome = true →
      (updatedRow r2 d).startTime = r2.startTime ∧
      (updatedRow r2 d).task = d.task ∧ (updatedRow r2 d).enabled = d.enabled ∧
      (updatedRow r2 d).description = d.description ∧ (updatedRow r2 d).args = d.args ∧
      (updatedRow r2 d).kwargs = d.kwargs ∧ (updatedRow r2 d).queue = d.queue ∧
      (updatedRow r2 d).priority = d.priority ∧
      (updatedRow r2 d).interval = d.interval ∧
      (updatedRow r2 d).crontab = d.crontab ∧ (updatedRow r2 d).solar = d.solar ∧
      (updatedRow r2 d).clocked = d.clocked)) :=
  ⟨⟨by decide, by decide, by decide⟩,
   start_time_write_once [jobThirty] 5 ⟨[rowAppF], [], [], 0, 0⟩ rowAppF 0
     (by decide) (by decide) (by decide)⟩

/-! ### C2 (amended): skipped jobs stay in the active set; their rows survive -/

/-- C2 (amended): a job skipped during reconciliation (no schedule, or
malformed crontab) is nonetheless **included** in the active-identity set —
`active_task_names.append` runs before the validation skips — and therefore
a previously persisted managed row with that identity is **retained**, not
deleted, by the Purge-Stale step (provided every declaration with that
identity in the batch is skipped, so none rewrites the row). -/
theorem skipped_job_name_active_row_retained (jobs : List Job) (now : Int) (db0 : Db)
    (j : Job) (hj : j ∈ jobs) (_hinv : jobValid j = false) :
    taskNameOf j ∈ (sync_periodic_tasks jobs now false true db0).activeNames ∧
    (∀ r ∈ db0.tasks, r.name = taskNameOf j →
      (∀ k ∈ jobs, taskNameOf k = taskNameOf j → jobValid k = false) →
      r ∈ (sync_periodic_tasks jobs now false true db0).db.tasks) := by
  constructor
  · rw [sync_gate_open, runCore_active]
    exact List.mem_map_of_mem _ hj
  · intro r hr hrn hallinv
    have hloop : ∀ (js : List Job) (db : Db), r ∈ db.tasks →
        (∀ k ∈ js, taskNameOf k = r.name → jobValid k = false) →
        r ∈ (loopRun now js db).db.tasks := by
      intro js
      induction js with
      | nil => exact fun db h _ => h
      | cons k rest ih =>
          intro db hmem hinvs
          rw [loopRun_cons]
          apply ih
          · by_cases hk : taskNameOf k = r.name
            · have hkinv := hinvs k (List.mem_cons_self _ _) hk
              rw [(jobStep_skip_shape now db k hkinv).1]
              exact hmem
            · have hrow : r ∈ rowsNamed db r.name := by
                unfold rowsNamed
                rw [List.mem_filter]
                exact ⟨hmem, by simp⟩
              have h2 : r ∈ rowsNamed (jobStep now db k).db r.name := by
                rw [jobStep_rowsNamed_other now db k hk]
                exact hrow
              unfold rowsNamed at h2
              exact (List.mem_filter.mp h2).1
          · exact fun k2 hk2 => hinvs k2 (List.mem_cons_of_mem _ hk2)
    have hrl : r ∈ (loopRun now jobs db0).db.tasks := by
      refine hloop jobs db0 hr ?_
      intro k hk hkn
      exact hallinv k hk (by rw [hkn, hrn])
    rw [sync_gate_open, runCore_tasks]
    rw [List.mem_filter]
    refine ⟨hrl, ?_⟩
    have hna : r.name ∈ jobs.map taskNameOf := by
      rw [hrn]
      exact List.mem_map_of_mem _ hj
    have hstale : isStale (jobs.map taskNameOf) r = false := by
      unfold isStale
      rw [contains_of_mem hna]
      simp
    rw [hstale]
    rfl

/-- C2 witness: the schedule-less declaration `app.f` is skipped, yet its
name is in the active set and the old managed row `rowAppF` survives the
purge. -/
theorem skipped_job_retained_witness :
    (jobNoSchedule ∈ [jobNoSchedule] ∧ jobValid jobNoSchedule = false) ∧
    (taskNameOf jobNoSchedule ∈
       (sync_periodic_tasks [jobNoSchedule] 0 false true
         ⟨[rowAppF], [], [], 0, 0⟩).activeNames ∧
     (∀ r ∈ (⟨[rowAppF], [], [], 0, 0⟩ : Db).tasks, r.name = taskNameOf jobNoSchedule →
      (∀ k ∈ [jobNoSchedule], taskNameOf k = taskNameOf jobNoSchedule →
        jobValid k = false) →
      r ∈ (sync_periodic_tasks [jobNoSchedule] 0 false true
        ⟨[rowAppF], [], [], 0, 0⟩).db.tasks)) :=
  ⟨⟨by decide, by decide⟩,
   skipped_job_name_active_row_retained [jobNoSchedule] 0 ⟨[rowAppF], [], [], 0, 0⟩
     jobNoSchedule (by decide) (by decide)⟩

/-! ### C10 (amended): the interval wins when both schedules are supplied -/

/-- C10 (amended): for a declaration supplying both an interval and a
crontab, **unless the interval is zero and the crontab value is itself
empty** (in which case the line-115 truthiness test skips the job with a
warning — see the counterexample), the reconciler builds the schedule from
the interval alone: no warning is emitted, a row with the job's identity
exists afterwards, and every row with that identity references a shared
interval schedule row with the declared seconds while its crontab slot is
NULL (store unique-name constraint assumed). -/
theorem interval_wins_over_crontab (now : Int) (db : Db) (j : Job) (s : Int)
    (cr : Crontab)
    (hji : j.interval = some s) (hjc : j.crontab = some cr)
    (htruthy : s ≠ 0 ∨ crontabTruthy (some cr) = true)
    (hnd : (db.tasks.map (fun r => r.name)).Nodup) :
    (jobStep now db j).logD = [] ∧
    (∃ r ∈ (jobStep now db j).db.tasks, r.name = taskNameOf j) ∧
    (∃ irow ∈ (jobStep now db j).db.intervals, irow.every = s ∧
      (∀ r ∈ (jobStep now db j).db.tasks, r.name = taskNameOf j →
        r.interval = some irow.id ∧ r.crontab = none)) := by
  have hv : jobValid j = true := by
    unfold jobValid
    rw [hji]
    dsimp only
    rcases htruthy with h | h
    · have : (s != 0) = true := by simpa using h
      rw [this]
      rfl
    · rw [hjc]
      rw [h]
      simp
  obtain ⟨i, c, hres, hnem, hall⟩ := jobStep_establishes now db j hv hnd
  obtain ⟨id, hl, hp⟩ := resolvedIds_interval hji hres
  rw [Prod.mk.injEq] at hp
  have hlogD : (jobStep now db j).logD = [] := by
    have hb : buildSchedule db j =
        .ok (some (getOrCreateInterval db s).1) none (getOrCreateInterval db s).2 := by
      unfold buildSchedule
      rw [hji]
    rw [jobStep_eq_go now hb (jobValid_truthy hv)]
    exact diffOrCreate_logD now j _ _ _
  obtain ⟨r1, hr1⟩ := List.exists_mem_of_ne_nil _ hnem
  have hr1m := (List.mem_filter.mp hr1).1
  have hr1n : r1.name = taskNameOf j := by
    simpa using (List.mem_filter.mp hr1).2
  unfold lookupIntervalId at hl
  cases hf : (jobStep now db j).db.intervals.find?
      (fun r => r.every == s && r.period == "seconds") with
  | none =>
      rw [hf] at hl
      cases hl
  | some irow =>
      rw [hf] at hl
      have hirid : irow.id = id := by
        simpa using hl
      have hirm := List.mem_of_find?_eq_some hf
      have hirp := List.find?_some hf
      have hirev : irow.every = s := by
        rw [Bool.and_eq_true] at hirp
        simpa using hirp.1
      refine ⟨hlogD, ⟨r1, hr1m, hr1n⟩, irow, hirm, hirev, ?_⟩
      intro r hrm hrn
      have hrf : r ∈ rowsNamed (jobStep now db j).db (taskNameOf j) := by
        unfold rowsNamed
        rw [List.mem_filter]
        exact ⟨hrm, by simp [hrn]⟩
      have hag := hall r hrf
      constructor
      · rw [hag.2.2.2.2.2.2.2.2.1, hp.1, hirid]
      · rw [hag.2.2.2.2.2.2.2.2.2.1, hp.2]

/-- C10 witness: the amended theorem at a declaration with `interval=30`
and `crontab="0 * * * *"` against the empty store. -/
theorem interval_wins_witness :
    (jobBoth.interval = some 30 ∧ jobBoth.crontab = some (.str "0 * * * *") ∧
     ((30 : Int) ≠ 0 ∨ crontabTruthy (some (.str "0 * * * *")) = true) ∧
     ((emptyDb.tasks.map (fun r => r.name)).Nodup)) ∧
    ((jobStep 0 emptyDb jobBoth).logD = [] ∧
     (∃ r ∈ (jobStep 0 emptyDb jobBoth).db.tasks, r.name = taskNameOf jobBoth) ∧
     (∃ irow ∈ (jobStep 0 emptyDb jobBoth).db.intervals, irow.every = 30 ∧
       (∀ r ∈ (jobStep 0 emptyDb jobBoth).db.tasks, r.name = taskNameOf jobBoth →
         r.interval = some irow.id ∧ r.crontab = none))) :=
  ⟨⟨rfl, rfl, Or.inl (by decide), by decide⟩,
   interval_wins_over_crontab 0 emptyDb jobBoth 30 (.str "0 * * * *") rfl rfl
     (Or.inl (by decide)) (by decide)⟩

/-! ### C7: a malformed crontab string skips only that job -/

theorem mem_of_contains {l : List String} {a : String} (h : l.contains a = true) :
    a ∈ l := by
  induction l with
  | nil => cases h
  | cons x xs ih =>
      rw [List.contains_cons] at h
      rcases Bool.or_eq_true_iff.mp h with h1 | h2
      · have hax : a = x := by simpa using h1
        rw [hax]
        exact List.mem_cons_self _ _
      · exact List.mem_cons_of_mem _ (ih h2)

theorem contains_eq_false_of_not_mem {l : List String} {a : String} (h : ¬ a ∈ l) :
    l.contains a = false := by
  cases hc : l.contains a with
  | false => rfl
  | true => exact absurd (mem_of_contains hc) h

/-- C7: a declaration whose crontab string does not split into exactly 5
whitespace-separated fields is skipped — a warning carrying the job path
and the offending string is logged, and (provided no persisted row already
carries the skipped job's identity) the run ends in exactly the same store,
change count and notification behaviour as the batch with that declaration
removed; every other valid job is reconciled normally. -/
theorem invalid_crontab_skips_only_that_job (pre post : List Job) (j : Job) (s : String)
    (now : Int) (db0 : Db)
    (hji : j.interval = none) (hjc : j.crontab = some (.str s))
    (hlen : (pySplit s).length ≠ 5)
    (hnorow : ∀ r ∈ db0.tasks, r.name ≠ taskNameOf j) :
    (sync_periodic_tasks (pre ++ j :: post) now false true db0).db =
      (sync_periodic_tasks (pre ++ post) now false true db0).db ∧
    (sync_periodic_tasks (pre ++ j :: post) now false true db0).changed =
      (sync_periodic_tasks (pre ++ post) now false true db0).changed ∧
    (sync_periodic_tasks (pre ++ j :: post) now false true db0).notifyCalls =
      (sync_periodic_tasks (pre ++ post) now false true db0).notifyCalls ∧
    LogEvent.warnInvalidCrontab j.modulePath s ∈
      (sync_periodic_tasks (pre ++ j :: post) now false true db0).log := by
  have hstep : ∀ db : Db,
      jobStep now db j = ⟨db, 0, 0, [.warnInvalidCrontab j.modulePath s]⟩ :=
    fun db => jobStep_eq_invalid now (buildSchedule_invalid_of_bad_split hji hjc hlen)
  have hA : loopRun now (pre ++ j :: post) db0 =
      ⟨(loopRun now post (loopRun now pre db0).db).db,
       (loopRun now pre db0).created +
         (loopRun now post (loopRun now pre db0).db).created,
       (loopRun now pre db0).updated +
         (loopRun now post (loopRun now pre db0).db).updated,
       (loopRun now pre db0).log ++ (LogEvent.warnInvalidCrontab j.modulePath s ::
         (loopRun now post (loopRun now pre db0).db).log)⟩ := by
    rw [loopRun_append, loopRun_cons, hstep]
    dsimp only
    simp only [Nat.zero_add]
    rfl
  have hB : loopRun now (pre ++ post) db0 =
      ⟨(loopRun now post (loopRun now pre db0).db).db,
       (loopRun now pre db0).created +
         (loopRun now post (loopRun now pre db0).db).created,
       (loopRun now pre db0).updated +
         (loopRun now post (loopRun now pre db0).db).updated,
       (loopRun now pre db0).log ++
         (loopRun now post (loopRun now pre db0).db).log⟩ :=
    loopRun_append now pre post db0
  have himp : ∀ x, x ∈ (pre ++ post).map taskNameOf →
      x ∈ (pre ++ j :: post).map taskNameOf := by
    intro x hx
    simp only [List.map_append, List.mem_append, List.map_cons, List.mem_cons] at hx ⊢
    tauto
  have hsame : ∀ r ∈ (loopRun now (pre ++ post) db0).db.tasks,
      isStale ((pre ++ j :: post).map taskNameOf) r =
      isStale ((pre ++ post).map taskNameOf) r := by
    intro r hr
    have hco : ((pre ++ j :: post).map taskNameOf).contains r.name =
        ((pre ++ post).map taskNameOf).contains r.name := by
      by_cases hm : r.name ∈ (pre ++ post).map taskNameOf
      · rw [contains_of_mem hm, contains_of_mem (himp _ hm)]
      · have hm1 : ¬ r.name ∈ (pre ++ j :: post).map taskNameOf := by
          intro hx
          simp only [List.map_append, List.mem_append, List.map_cons,
            List.mem_cons] at hx
          rcases hx with h1 | h1 | h1
          · exact hm (by
              simp only [List.map_append, List.mem_append]
              exact Or.inl h1)
          · rcases loopRun_names_sub now (pre ++ post) db0 r.name
                (List.mem_map_of_mem _ hr) with hdb0 | hjobs
            · obtain ⟨r0, hr0, hr0n⟩ := List.mem_map.mp hdb0
              exact hnorow r0 hr0 (by rw [hr0n, h1])
            · exact hm hjobs
          · exact hm (by
              simp only [List.map_append, List.mem_append]
              exact Or.inr h1)
        rw [contains_eq_false_of_not_mem hm, contains_eq_false_of_not_mem hm1]
    unfold isStale
    rw [hco]
  have hfilt : (loopRun now (pre ++ post) db0).db.tasks.filter
      (isStale ((pre ++ j :: post).map taskNameOf)) =
      (loopRun now (pre ++ post) db0).db.tasks.filter
        (isStale ((pre ++ post).map taskNameOf)) :=
    List.filter_congr hsame
  have hkeep : (loopRun now (pre ++ post) db0).db.tasks.filter
      (fun r => !(isStale ((pre ++ j :: post).map taskNameOf) r)) =
      (loopRun now (pre ++ post) db0).db.tasks.filter
        (fun r => !(isStale ((pre ++ post).map taskNameOf) r)) :=
    List.filter_congr (fun r hr => by rw [hsame r hr])
  have hAdb : (loopRun now (pre ++ j :: post) db0).db =
      (loopRun now (pre ++ post) db0).db := by
    rw [hA, hB]
  have hAc : (loopRun now (pre ++ j :: post) db0).created =
      (loopRun now (pre ++ post) db0).created := by
    rw [hA, hB]
  have hAu : (loopRun now (pre ++ j :: post) db0).updated =
      (loopRun now (pre ++ post) db0).updated := by
    rw [hA, hB]
  obtain ⟨hc1a, hc2a, hc3a, hc4a⟩ := runCore_counts now (pre ++ j :: post) db0
  obtain ⟨hc1b, hc2b, hc3b, hc4b⟩ := runCore_counts now (pre ++ post) db0
  have hcheq : (runCore now (pre ++ j :: post) db0).changed =
      (runCore now (pre ++ post) db0).changed := by
    rw [hc4a, hc4b, hAc, hAu, hAdb, hfilt]
  refine ⟨?_, ?_, ?_, ?_⟩
  · rw [sync_gate_open, sync_gate_open, runCore_unfold, runCore_unfold]
    dsimp only
    rw [hAdb, hfilt, hkeep]
  · rw [sync_gate_open, sync_gate_open]
    exact hcheq
  · rw [sync_gate_open, sync_gate_open, runCore_notify, runCore_notify, hcheq]
  · rw [sync_gate_open]
    apply runCore_log_mem
    rw [hA]
    dsimp only
    simp [List.mem_append]

/-- C7 witness: the malformed declaration `jobBadCron` (crontab `"1 2 3"`)
alongside the valid `jobThirty` against the empty store. -/
theorem invalid_crontab_witness :
    (jobBadCron.interval = none ∧ jobBadCron.crontab = some (.str "1 2 3") ∧
     (pySplit "1 2 3").length ≠ 5 ∧
     (∀ r ∈ emptyDb.tasks, r.name ≠ taskNameOf jobBadCron)) ∧
    ((sync_periodic_tasks [jobBadCron, jobThirty] 0 false true emptyDb).db =
       (sync_periodic_tasks [jobThirty] 0 false true emptyDb).db ∧
     (sync_periodic_tasks [jobBadCron, jobThirty] 0 false true emptyDb).changed =
       (sync_periodic_tasks [jobThirty] 0 false true emptyDb).changed ∧
     (sync_periodic_tasks [jobBadCron, jobThirty] 0 false true emptyDb).notifyCalls =
       (sync_periodic_tasks [jobThirty] 0 false true emptyDb).notifyCalls ∧
     LogEvent.warnInvalidCrontab jobBadCron.modulePath "1 2 3" ∈
       (sync_periodic_tasks [jobBadCron, jobThirty] 0 false true emptyDb).log) :=
  ⟨⟨rfl, rfl, by decide, by decide⟩,
   invalid_crontab_skips_only_that_job [] [jobThirty] jobBadCron "1 2 3" 0 emptyDb
     rfl rfl (by decide) (by decide)⟩

end DjangoBeatPeriodic
